import Mathlib

/-!
# Verification of the Lost & Found items manager record store

Shallow embedding of `src/Lost_and_found_items_manager.cpp`.

Modelling conventions:
* `std::string` values are byte sequences, modelled as `List Nat` (each
  element a byte value `< 256`); the C++ code compares and searches them
  bytewise, which the model mirrors.
* The fixed `char date[12]` array is a `List Nat` of length 12.
* C `int` fields (`id`, `matched`, `claimed`, `matchedItemID`) are `Int`;
  where 32-bit truncation matters (the binary codec) it is explicit.
* The binary file is a `List Nat` of bytes; an absent/unopenable file is
  `Option.none`.
* Interactive prompting is outside the model: each operation takes the
  already-validated inputs the CLI layer would hand to it.
-/

namespace LostFound

/-- `Item` structure from the source (`struct Item`). -/
structure Item where
  id : Int
  name : List Nat
  category : List Nat
  description : List Nat
  date : List Nat
  location : List Nat
  status : List Nat
  matched : Int
  claimed : Int
  matchedItemID : Int
  personName : List Nat
  personContact : List Nat
deriving Repr, DecidableEq

/-- The byte string "Lost" (ASCII). -/
def lostStr : List Nat := [76, 111, 115, 116]

/-- The byte string "Found" (ASCII). -/
def foundStr : List Nat := [70, 111, 117, 110, 100]

/-- C `tolower` on a byte in the default locale: ASCII uppercase maps down. -/
def toLowerByte (b : Nat) : Nat := if 65 ≤ b ∧ b ≤ 90 then b + 32 else b

/-- `toLowerCase` helper from the source: lowercases every byte. -/
def toLowerCase (s : List Nat) : List Nat := s.map toLowerByte

/-- `std::string::find(sub) != npos`: does `sub` occur as a contiguous
substring of `s`?  (The empty string occurs in every string.) -/
def containsList : List Nat → List Nat → Bool
  | s, sub =>
    if sub.isPrefixOf s then true
    else match s with
      | [] => false
      | _ :: t => containsList t sub

/-- `containsSubstring` from the source: case-insensitive substring test. -/
def containsSubstring (str sub : List Nat) : Bool :=
  containsList (toLowerCase str) (toLowerCase sub)

/-- Lexicographic strict order on byte strings, the order used by
`std::string::operator<` (bytewise `memcmp` semantics). -/
def listLexLt : List Nat → List Nat → Bool
  | [], [] => false
  | [], _ :: _ => true
  | _ :: _, [] => false
  | a :: as, b :: bs => if a < b then true else if b < a then false else listLexLt as bs

/-- The C string held in a fixed `char` array: the bytes up to the first
null terminator.  `strcmp` compares exactly these prefixes. -/
def cstrOf (l : List Nat) : List Nat := l.takeWhile (fun b => b ≠ 0)

end LostFound

namespace LostFound

/-! ## Binary persistence codec (`saveToFile` / `loadFromFile`) -/

/-- Little-endian byte encoding of `v` in exactly `w` bytes (as the raw
`file.write(reinterpret_cast<char*>(&x), sizeof x)` calls produce on a
little-endian machine). -/
def toBytesN : Nat → Nat → List Nat
  | 0, _ => []
  | w + 1, v => (v % 256) :: toBytesN w (v / 256)

/-- Little-endian byte decoding. -/
def fromBytesN : List Nat → Nat
  | [] => 0
  | b :: bs => b + 256 * fromBytesN bs

/-- Bytes of a C `int` (32-bit two's complement, little-endian). -/
def int32ToBytes (v : Int) : List Nat := toBytesN 4 (v % (2 ^ 32)).toNat

/-- Reinterpret 4 bytes as a signed 32-bit integer. -/
def bytesToInt32 (bs : List Nat) : Int :=
  if fromBytesN bs < 2 ^ 31 then (fromBytesN bs : Int)
  else (fromBytesN bs : Int) - 2 ^ 32

/-- A length-prefixed string field as `saveToFile` writes it: a
`size_t` (8 bytes on the 64-bit platform) length, then the raw bytes. -/
def encodeStr (s : List Nat) : List Nat := toBytesN 8 s.length ++ s

/-- The per-record byte layout of `saveToFile` (field order from the source). -/
def encodeItem (it : Item) : List Nat :=
  int32ToBytes it.id ++
  encodeStr it.name ++
  encodeStr it.category ++
  encodeStr it.description ++
  it.date ++
  encodeStr it.location ++
  encodeStr it.status ++
  int32ToBytes it.matched ++
  int32ToBytes it.claimed ++
  int32ToBytes it.matchedItemID ++
  encodeStr it.personName ++
  encodeStr it.personContact

/-- `saveToFile`: header (`nextID`, `itemCount`) then each record in store
order.  Produces the byte content of the written file. -/
def saveToFile (nextID : Int) (items : List Item) : List Nat :=
  int32ToBytes nextID ++ int32ToBytes (items.length : Int) ++
    (items.map encodeItem).flatten

/-- `file.read(buf, n)`: succeeds only when `n` bytes remain. -/
def readBytes (n : Nat) (bs : List Nat) : Option (List Nat × List Nat) :=
  if n ≤ bs.length then some (bs.take n, bs.drop n) else none

/-- Read a C `int` from the stream. -/
def readInt32 (bs : List Nat) : Option (Int × List Nat) :=
  (readBytes 4 bs).map fun p => (bytesToInt32 p.1, p.2)

/-- Read a `size_t` length from the stream. -/
def readLen (bs : List Nat) : Option (Nat × List Nat) :=
  (readBytes 8 bs).map fun p => (fromBytesN p.1, p.2)

/-- Read one length-prefixed string field. -/
def readStr (bs0 : List Nat) : Option (List Nat × List Nat) :=
  match readLen bs0 with
  | none => none
  | some (n, bs1) => readBytes n bs1

/-- One record as `loadFromFile`'s loop body reads it, field by field in the
fixed order.  `none` models the stream running out mid-record (in the C++
code this leaves garbage in the record; no claim depends on that case). -/
def readItem (bs0 : List Nat) : Option (Item × List Nat) :=
  match readInt32 bs0 with
  | none => none
  | some (id, bs1) =>
  match readStr bs1 with
  | none => none
  | some (name, bs2) =>
  match readStr bs2 with
  | none => none
  | some (category, bs3) =>
  match readStr bs3 with
  | none => none
  | some (description, bs4) =>
  match readBytes 12 bs4 with
  | none => none
  | some (date, bs5) =>
  match readStr bs5 with
  | none => none
  | some (location, bs6) =>
  match readStr bs6 with
  | none => none
  | some (status, bs7) =>
  match readInt32 bs7 with
  | none => none
  | some (matched, bs8) =>
  match readInt32 bs8 with
  | none => none
  | some (claimed, bs9) =>
  match readInt32 bs9 with
  | none => none
  | some (matchedItemID, bs10) =>
  match readStr bs10 with
  | none => none
  | some (personName, bs11) =>
  match readStr bs11 with
  | none => none
  | some (personContact, bs12) =>
    some (⟨id, name, category, description, date, location, status,
           matched, claimed, matchedItemID, personName, personContact⟩, bs12)

/-- The record-reading loop: exactly `n` records. -/
def readItems : Nat → List Nat → Option (List Item × List Nat)
  | 0, bs => some ([], bs)
  | n + 1, bs0 =>
    match readItem bs0 with
    | none => none
    | some (it, bs1) =>
      match readItems n bs1 with
      | none => none
      | some (rest, bs2) => some (it :: rest, bs2)

/-- The capacity-doubling loop `while (capacity < itemCount) capacity *= 2;`
from `loadFromFile`.  The fuel argument (`n` doublings) suffices for any
positive starting capacity. -/
def growCapAux : Nat → Nat → Nat → Nat
  | 0, cap, _ => cap
  | fuel + 1, cap, n => if cap < n then growCapAux fuel (cap * 2) n else cap

/-- Grown capacity after `loadFromFile`'s doubling loop. -/
def growCap (cap n : Nat) : Nat := growCapAux n cap n

/-- Result of `loadFromFile`: the loaded records (`none` when the stream ran
out mid-record, which the C++ code does not detect), the loaded `nextID`,
and the resulting capacity. -/
structure LoadResult where
  items : Option (List Item)
  nextID : Int
  capacity : Nat
deriving Repr, DecidableEq

/-- `loadFromFile`: absent file or unreadable header give an empty store with
`nextID = 100`; otherwise the header is trusted and `itemCount` records are
read after growing the capacity. -/
def loadFromFile (fileBs : Option (List Nat)) (capacity : Nat) : LoadResult :=
  match fileBs with
  | none => ⟨some [], 100, capacity⟩
  | some bs =>
    match readInt32 bs with
    | none => ⟨some [], 100, capacity⟩
    | some (nid, bs1) =>
      match readInt32 bs1 with
      | none => ⟨some [], 100, capacity⟩
      | some (cnt, bs2) =>
        let cap := if (capacity : Int) < cnt then growCap capacity cnt.toNat else capacity
        match readItems cnt.toNat bs2 with
        | none => ⟨none, nid, cap⟩
        | some (lst, _) => ⟨some lst, nid, cap⟩

end LostFound

namespace LostFound

/-! ## Codec round-trip lemmas -/

theorem toBytesN_length (w v : Nat) : (toBytesN w v).length = w := by
  induction w generalizing v with
  | zero => rfl
  | succ w ih => simp [toBytesN, ih]

theorem fromBytesN_toBytesN (w v : Nat) (h : v < 256 ^ w) :
    fromBytesN (toBytesN w v) = v := by
  induction w generalizing v with
  | zero =>
    simp only [pow_zero, Nat.lt_one_iff] at h
    simp [toBytesN, fromBytesN, h]
  | succ w ih =>
    have hdiv : v / 256 < 256 ^ w := by
      apply Nat.div_lt_of_lt_mul
      rw [pow_succ] at h
      omega
    simp only [toBytesN, fromBytesN, ih (v / 256) hdiv]
    omega

theorem readBytes_append (n : Nat) (a b : List Nat) (h : a.length = n) :
    readBytes n (a ++ b) = some (a, b) := by
  subst h
  unfold readBytes
  rw [if_pos (by simp)]
  simp

/-- Range of a C `int` value. -/
def int32Range (v : Int) : Prop := -(2 ^ 31) ≤ v ∧ v < 2 ^ 31

instance (v : Int) : Decidable (int32Range v) := by unfold int32Range; infer_instance

theorem bytesToInt32_int32ToBytes (v : Int) (h : int32Range v) :
    bytesToInt32 (int32ToBytes v) = v := by
  obtain ⟨h1, h2⟩ := h
  unfold bytesToInt32 int32ToBytes
  have h256 : (256 : Nat) ^ 4 = 2 ^ 32 := by norm_num
  have hlt : (v % (2 ^ 32)).toNat < 256 ^ 4 := by
    rw [h256]
    omega
  rw [fromBytesN_toBytesN 4 _ hlt]
  split <;> omega

theorem readInt32_encode (v : Int) (rest : List Nat) (h : int32Range v) :
    readInt32 (int32ToBytes v ++ rest) = some (v, rest) := by
  unfold readInt32
  rw [readBytes_append 4 _ _ (by simp [int32ToBytes, toBytesN_length])]
  simp [bytesToInt32_int32ToBytes v h]

theorem readLen_encode (n : Nat) (rest : List Nat) (h : n < 2 ^ 64) :
    readLen (toBytesN 8 n ++ rest) = some (n, rest) := by
  unfold readLen
  rw [readBytes_append 8 _ _ (toBytesN_length 8 n)]
  have h256 : (256 : Nat) ^ 8 = 2 ^ 64 := by norm_num
  simp [fromBytesN_toBytesN 8 n (by rw [h256]; exact h)]

theorem readStr_encode (s rest : List Nat) (h : s.length < 2 ^ 64) :
    readStr (encodeStr s ++ rest) = some (s, rest) := by
  unfold readStr encodeStr
  rw [List.append_assoc, readLen_encode s.length (s ++ rest) h]
  simpa using readBytes_append s.length s rest rfl

/-- A byte string: every element is an actual byte value. -/
def isByteStr (s : List Nat) : Prop := ∀ b ∈ s, b < 256

instance (s : List Nat) : Decidable (isByteStr s) := by unfold isByteStr; infer_instance

/-- Well-formedness of a record as the C++ object representation guarantees
it: integer fields fit in a C `int`, the date array has its fixed 12 bytes,
strings are byte strings short enough for their `size_t` length prefix. -/
def ItemWF (it : Item) : Prop :=
  int32Range it.id ∧ int32Range it.matched ∧ int32Range it.claimed ∧
  int32Range it.matchedItemID ∧
  it.date.length = 12 ∧ isByteStr it.date ∧
  it.name.length < 2 ^ 64 ∧ isByteStr it.name ∧
  it.category.length < 2 ^ 64 ∧ isByteStr it.category ∧
  it.description.length < 2 ^ 64 ∧ isByteStr it.description ∧
  it.location.length < 2 ^ 64 ∧ isByteStr it.location ∧
  it.status.length < 2 ^ 64 ∧ isByteStr it.status ∧
  it.personName.length < 2 ^ 64 ∧ isByteStr it.personName ∧
  it.personContact.length < 2 ^ 64 ∧ isByteStr it.personContact

instance (it : Item) : Decidable (ItemWF it) := by unfold ItemWF; infer_instance

theorem readItem_encode (it : Item) (rest : List Nat) (h : ItemWF it) :
    readItem (encodeItem it ++ rest) = some (it, rest) := by
  obtain ⟨hid, hm, hc, hmi, hdlen, -,
    hnlen, -, hclen, -, hdslen, -, hllen, -, hslen, -, hpnlen, -, hpclen, -⟩ := h
  simp only [encodeItem, List.append_assoc]
  simp only [readItem, readInt32_encode _ _ hid, readInt32_encode _ _ hm,
    readInt32_encode _ _ hc, readInt32_encode _ _ hmi,
    readStr_encode _ _ hnlen, readStr_encode _ _ hclen,
    readStr_encode _ _ hdslen, readStr_encode _ _ hllen,
    readStr_encode _ _ hslen, readStr_encode _ _ hpnlen,
    readStr_encode _ _ hpclen, readBytes_append 12 _ _ hdlen]

theorem readItems_encode (items : List Item) (rest : List Nat)
    (h : ∀ it ∈ items, ItemWF it) :
    readItems items.length ((items.map encodeItem).flatten ++ rest) =
      some (items, rest) := by
  induction items with
  | nil => simp [readItems]
  | cons it its ih =>
    simp only [List.map_cons, List.flatten_cons, List.append_assoc,
      List.length_cons, readItems]
    rw [readItem_encode it _ (h it (List.mem_cons_self it its))]
    dsimp only
    rw [ih (fun x hx => h x (List.mem_cons_of_mem _ hx))]

/-- A store state the C++ program can actually hold: `nextID` and the count
fit in a C `int` and every record is well formed. -/
def validStore (nextID : Int) (items : List Item) : Prop :=
  int32Range nextID ∧ (items.length : Int) < 2 ^ 31 ∧ ∀ it ∈ items, ItemWF it

instance (nextID : Int) (items : List Item) : Decidable (validStore nextID items) := by
  unfold validStore; infer_instance

theorem load_save_roundtrip (nextID : Int) (items : List Item) (cap : Nat)
    (h : validStore nextID items) :
    loadFromFile (some (saveToFile nextID items)) cap =
      ⟨some items, nextID,
        if (cap : Int) < (items.length : Int) then growCap cap items.length else cap⟩ := by
  obtain ⟨h1, h3, h4⟩ := h
  have h2 : int32Range (items.length : Int) := ⟨by omega, h3⟩
  have hrt := readItems_encode items [] h4
  rw [List.append_nil] at hrt
  unfold saveToFile
  rw [List.append_assoc]
  simp only [loadFromFile, readInt32_encode nextID _ h1,
    readInt32_encode (items.length : Int) _ h2, Int.toNat_natCast, hrt]

end LostFound

namespace LostFound

/-! ## Sample records used by concrete witnesses -/

/-- A concrete well-formed Lost record ("wallet"). -/
def sampleA : Item :=
  { id := 100, name := [119, 97, 108, 108, 101, 116],
    category := [65, 99, 99, 101, 115, 115, 111, 114, 105, 101, 115],
    description := [98, 114, 111, 119, 110],
    date := [50, 48, 50, 52, 45, 48, 49, 45, 48, 50, 0, 0],
    location := [76, 105, 98, 114, 97, 114, 121], status := lostStr,
    matched := 0, claimed := 0, matchedItemID := -1,
    personName := [65, 110, 97], personContact := [48, 57, 49, 49] }

/-- A concrete well-formed Found record ("wallet"). -/
def sampleB : Item :=
  { id := 101, name := [87, 97, 108, 108, 101, 116],
    category := [65, 99, 99, 101, 115, 115, 111, 114, 105, 101, 115],
    description := [108, 101, 97, 116, 104, 101, 114],
    date := [50, 48, 50, 52, 45, 48, 49, 45, 48, 51, 0, 0],
    location := [108, 105, 98, 114, 97, 114, 121], status := foundStr,
    matched := 0, claimed := 0, matchedItemID := -1,
    personName := [], personContact := [] }

/-- C1: encoding any valid store with `saveToFile` and decoding the produced
bytes with `loadFromFile` yields a store with the same records, field for
field and in the same order (hence the same record count), and the same
`nextID`; this holds for any record count including zero and any capacity. -/
theorem c1_saveLoad_roundtrip (nextID : Int) (items : List Item) (cap : Nat)
    (h : validStore nextID items) :
    (loadFromFile (some (saveToFile nextID items)) cap).items = some items ∧
    (loadFromFile (some (saveToFile nextID items)) cap).nextID = nextID := by
  rw [load_save_roundtrip nextID items cap h]
  exact ⟨rfl, rfl⟩

/-- Witness for C1 at a concrete two-record store. -/
theorem c1_saveLoad_roundtrip_witness :
    validStore 102 [sampleA, sampleB] ∧
    (loadFromFile (some (saveToFile 102 [sampleA, sampleB])) 10).items =
      some [sampleA, sampleB] ∧
    (loadFromFile (some (saveToFile 102 [sampleA, sampleB])) 10).nextID = 102 :=
  ⟨by decide, (c1_saveLoad_roundtrip 102 [sampleA, sampleB] 10 (by decide)).1,
    (c1_saveLoad_roundtrip 102 [sampleA, sampleB] 10 (by decide)).2⟩

/-! ## `loadFromFile` failure handling (C9) -/

theorem growCapAux_ge (fuel cap n : Nat) (h1 : 1 ≤ cap) (h2 : n ≤ cap + fuel) :
    n ≤ growCapAux fuel cap n := by
  induction fuel generalizing cap with
  | zero => simp only [growCapAux]; omega
  | succ fuel ih =>
    simp only [growCapAux]
    split
    · exact ih (cap * 2) (by omega) (by omega)
    · omega

theorem growCap_ge (cap n : Nat) (h : 1 ≤ cap) : n ≤ growCap cap n :=
  growCapAux_ge n cap n h (by omega)

theorem readItems_length (n : Nat) (bs : List Nat) (lst : List Item)
    (rest : List Nat) (h : readItems n bs = some (lst, rest)) :
    lst.length = n := by
  induction n generalizing bs lst rest with
  | zero =>
    simp only [readItems, Option.some.injEq, Prod.mk.injEq] at h
    rw [← h.1]
    rfl
  | succ n ih =>
    rw [readItems] at h
    cases e1 : readItem bs with
    | none => rw [e1] at h; simp at h
    | some p =>
      obtain ⟨it, bs1⟩ := p
      rw [e1] at h
      dsimp only at h
      cases e2 : readItems n bs1 with
      | none => rw [e2] at h; simp at h
      | some q =>
        obtain ⟨rest1, bs2⟩ := q
        rw [e2] at h
        simp only [Option.some.injEq, Prod.mk.injEq] at h
        rw [← h.1, List.length_cons, ih bs1 rest1 bs2 e2]

theorem readInt32_none (bs : List Nat) (h : bs.length < 4) : readInt32 bs = none := by
  simp only [readInt32, readBytes]
  rw [if_neg (by omega)]
  rfl

theorem readInt32_some (bs : List Nat) (h : 4 ≤ bs.length) :
    readInt32 bs = some (bytesToInt32 (bs.take 4), bs.drop 4) := by
  simp only [readInt32, readBytes]
  rw [if_pos h]
  rfl

/-- C9: if the file is absent/unopenable or its two-`int` header cannot be
fully read, `loadFromFile` leaves the store empty with `nextID = 100` and
reports no error (the result is a normal empty store); otherwise it trusts
the header, grows the capacity to at least `recordCount` first, and reads
exactly `recordCount` records in the fixed field order into the store. -/
theorem c9_loadFromFile_spec (cap : Nat) (hcap : 1 ≤ cap) :
    loadFromFile none cap = ⟨some [], 100, cap⟩ ∧
    (∀ bs : List Nat, bs.length < 8 → loadFromFile (some bs) cap = ⟨some [], 100, cap⟩) ∧
    (∀ (bs : List Nat) (nid cnt : Int) (rest1 rest2 : List Nat)
       (lst : List Item) (rest3 : List Nat),
      readInt32 bs = some (nid, rest1) →
      readInt32 rest1 = some (cnt, rest2) →
      readItems cnt.toNat rest2 = some (lst, rest3) →
      (loadFromFile (some bs) cap).items = some lst ∧
      lst.length = cnt.toNat ∧
      (loadFromFile (some bs) cap).nextID = nid ∧
      cnt.toNat ≤ (loadFromFile (some bs) cap).capacity) := by
  refine ⟨rfl, ?_, ?_⟩
  · intro bs hlen
    rcases Nat.lt_or_ge bs.length 4 with h4 | h4
    · simp [loadFromFile, readInt32_none bs h4]
    · have hd : (bs.drop 4).length < 4 := by
        rw [List.length_drop]
        omega
      simp [loadFromFile, readInt32_some bs h4, readInt32_none _ hd]
  · intro bs nid cnt rest1 rest2 lst rest3 h1 h2 h3
    have hl := readItems_length _ _ _ _ h3
    simp only [loadFromFile, h1, h2, h3]
    refine ⟨trivial, hl, trivial, ?_⟩
    split
    · exact growCap_ge cap cnt.toNat hcap
    · omega

/-- Witness for C9: a file holding only the header `nextID = 105`,
`recordCount = 0`, loaded at capacity 10. -/
theorem c9_loadFromFile_spec_witness :
    (1 : Nat) ≤ 10 ∧
    ((loadFromFile (some [105, 0, 0, 0, 0, 0, 0, 0]) 10).items = some [] ∧
     ([] : List Item).length = (0 : Int).toNat ∧
     (loadFromFile (some [105, 0, 0, 0, 0, 0, 0, 0]) 10).nextID = 105 ∧
     (0 : Int).toNat ≤ (loadFromFile (some [105, 0, 0, 0, 0, 0, 0, 0]) 10).capacity) :=
  ⟨by norm_num,
    (c9_loadFromFile_spec 10 (by norm_num)).2.2 [105, 0, 0, 0, 0, 0, 0, 0] 105 0
      [0, 0, 0, 0] [] [] [] (by decide) (by decide) (by decide)⟩

end LostFound

namespace LostFound

/-! ## Store operations -/

/-- First-match id scan (`getItemByID` and the lookup loops in `updateItem`,
`deleteItem`): index of the first record whose `id` equals `tid`. -/
def findIdxByIdAux (tid : Int) : List Item → Nat → Option Nat
  | [], _ => none
  | it :: rest, i => if it.id = tid then some i else findIdxByIdAux tid rest (i + 1)

/-- Index of the first record with the given id, as the C++ first-match
pointer scans resolve it. -/
def findIdxById (items : List Item) (tid : Int) : Option Nat :=
  findIdxByIdAux tid items 0

/-- The lookup loop in `markItemAsMatched` has no `break`, so its pointer is
overwritten on every hit: the LAST index with a matching id wins. -/
def findLastIdxAux (tid : Int) : List Item → Nat → Option Nat → Option Nat
  | [], _, acc => acc
  | it :: rest, i, acc =>
      findLastIdxAux tid rest (i + 1) (if it.id = tid then some i else acc)

/-- Index of the last record with the given id. -/
def findLastIdx (items : List Item) (tid : Int) : Option Nat :=
  findLastIdxAux tid items 0 none

/-- Failure reasons of `markItemAsMatched`, one per early-return message. -/
inductive MatchErr where
  | notEnoughItems
  | selfMatch
  | idNotFound
  | sameStatus
  | alreadyMatched
deriving Repr, DecidableEq

/-- `markItemAsMatched`: the explicit match-two-ids operation.  The guards
appear in source order: too few items, identical ids, lookup of both ids,
same-status rejection, already-matched rejection; then `markAsMatched`
cross-links the two records.  (On the success path the two indices differ,
because the two looked-up ids differ, so updating from the original records
is exact.) -/
def markItemAsMatched (items : List Item) (id1 id2 : Int) :
    Except MatchErr (List Item) :=
  if items.length < 2 then .error .notEnoughItems
  else if id1 = id2 then .error .selfMatch
  else
    match findLastIdx items id1, findLastIdx items id2 with
    | some p1, some p2 =>
      match items[p1]?, items[p2]? with
      | some it1, some it2 =>
        if (it1.status = lostStr ∧ it2.status = lostStr) ∨
            (it1.status = foundStr ∧ it2.status = foundStr) then .error .sameStatus
        else if it1.matched ≠ 0 ∨ it2.matched ≠ 0 then .error .alreadyMatched
        else
          .ok ((items.set p1 { it1 with matched := 1, matchedItemID := it2.id }).set
                p2 { it2 with matched := 1, matchedItemID := it1.id })
      | _, _ => .error .idNotFound
    | _, _ => .error .idNotFound

/-- `markAsClaimed` after its input loop: find the record, reject unmatched
or already-claimed targets, claim it, and claim the record its
`matchedItemID` resolves to (looked up, as in the source, in the store
after the first update).  `none` is any of the early returns, which leave
the store unchanged. -/
def markAsClaimed (items : List Item) (tid : Int) : Option (List Item) :=
  match findIdxById items tid with
  | none => none
  | some p =>
    match items[p]? with
    | none => none
    | some it =>
      if it.matched = 0 then none
      else if it.claimed = 1 then none
      else if it.matchedItemID ≠ -1 then
        match findIdxById (items.set p { it with claimed := 1 }) it.matchedItemID with
        | none => some (items.set p { it with claimed := 1 })
        | some q =>
          match (items.set p { it with claimed := 1 })[q]? with
          | none => some (items.set p { it with claimed := 1 })
          | some b => some ((items.set p { it with claimed := 1 }).set q { b with claimed := 1 })
      else some (items.set p { it with claimed := 1 })

/-- `deleteItem` (confirmed path): find the first record with the id and
shift every following record one position earlier. -/
def deleteItem (items : List Item) (tid : Int) : Option (List Item) :=
  if items.length = 0 then none
  else
    match findIdxById items tid with
    | none => none
    | some idx => some (items.eraseIdx idx)

/-- The scan loop of `searchByStatus`: case-insensitive status equality AND
unmatched only. -/
def searchByStatusAux (q : List Nat) : List Item → Nat → List Nat
  | [], _ => []
  | it :: rest, i =>
    if toLowerCase it.status = toLowerCase q ∧ it.matched = 0 then
      i :: searchByStatusAux q rest (i + 1)
    else searchByStatusAux q rest (i + 1)

/-- `searchByStatus` from the source. -/
def searchByStatus (items : List Item) (status : List Nat) : List Nat :=
  searchByStatusAux status items 0

/-- The eight-way substring test of `findPotentialMatches` (both directions
on each of name, category, description, location). -/
def itemOverlap (it newItem : Item) : Bool :=
  containsSubstring it.name newItem.name ||
  containsSubstring newItem.name it.name ||
  containsSubstring it.category newItem.category ||
  containsSubstring newItem.category it.category ||
  containsSubstring it.description newItem.description ||
  containsSubstring newItem.description it.description ||
  containsSubstring it.location newItem.location ||
  containsSubstring newItem.location it.location

/-- The scan loop of `findPotentialMatches`: skip matched or same-status
records, collect those with a substring overlap. -/
def findPotentialMatchesAux (newItem : Item) : List Item → Nat → List Nat
  | [], _ => []
  | it :: rest, i =>
    if it.matched = 1 ∨ it.status = newItem.status then
      findPotentialMatchesAux newItem rest (i + 1)
    else if itemOverlap it newItem then
      i :: findPotentialMatchesAux newItem rest (i + 1)
    else findPotentialMatchesAux newItem rest (i + 1)

/-- `findPotentialMatches` from the source (returned as the index list;
the C++ `NULL` result for zero matches is the empty list). -/
def findPotentialMatches (items : List Item) (newItem : Item) : List Nat :=
  findPotentialMatchesAux newItem items 0

/-- The candidate query `searchForMatches` makes for a newly added record:
`findPotentialMatches(items, itemCount - 1, newItem, ...)` scans only the
records before the new one (the new record is the last). -/
def searchForMatchesCands (items : List Item) (newItem : Item) : List Nat :=
  findPotentialMatches (items.take (items.length - 1)) newItem

end LostFound

namespace LostFound

/-! ## Substring characterisation and the search claims (C4, C5) -/

theorem containsList_iff (s sub : List Nat) :
    containsList s sub = true ↔ sub <:+: s := by
  induction s with
  | nil =>
    rw [containsList]
    simp [List.isPrefixOf_iff_prefix, List.infix_nil, List.prefix_nil]
  | cons a t ih =>
    rw [containsList]
    by_cases hp : sub <+: a :: t
    · rw [if_pos (List.isPrefixOf_iff_prefix.2 hp)]
      simp [List.infix_cons_iff, hp]
    · rw [if_neg (fun hc => hp (List.isPrefixOf_iff_prefix.1 hc))]
      rw [ih]
      constructor
      · exact fun h => List.infix_cons_iff.2 (Or.inr h)
      · intro h
        rcases List.infix_cons_iff.1 h with h | h
        · exact absurd h hp
        · exact h

theorem containsSubstring_iff (a b : List Nat) :
    containsSubstring a b = true ↔ toLowerCase b <:+: toLowerCase a := by
  unfold containsSubstring
  exact containsList_iff _ _

/-- Spec wording: field `a` contains field `b` as a case-insensitive
substring. -/
def specContains (a b : List Nat) : Prop := toLowerCase b <:+: toLowerCase a

instance (a b : List Nat) : Decidable (specContains a b) := by
  unfold specContains; infer_instance

/-- A record's status field actually is one of the two statuses. -/
def statusWF (it : Item) : Prop := it.status = lostStr ∨ it.status = foundStr

instance (it : Item) : Decidable (statusWF it) := by unfold statusWF; infer_instance

/-- Spec wording: the two records have opposite status (one Lost, one
Found). -/
def specOppositeStatus (a b : Item) : Prop :=
  (a.status = lostStr ∧ b.status = foundStr) ∨
  (a.status = foundStr ∧ b.status = lostStr)

instance (a b : Item) : Decidable (specOppositeStatus a b) := by
  unfold specOppositeStatus; infer_instance

/-- Spec wording: substring overlap in either direction on at least one of
name, category, description, location. -/
def specOverlap (cand newIt : Item) : Prop :=
  (specContains cand.name newIt.name ∨ specContains newIt.name cand.name) ∨
  (specContains cand.category newIt.category ∨ specContains newIt.category cand.category) ∨
  (specContains cand.description newIt.description ∨ specContains newIt.description cand.description) ∨
  (specContains cand.location newIt.location ∨ specContains newIt.location cand.location)

instance (a b : Item) : Decidable (specOverlap a b) := by
  unfold specOverlap; infer_instance

/-- Spec wording (C4): a candidate is unmatched, of opposite status, and
overlaps the new record on some field. -/
def specCandidate (newIt cand : Item) : Prop :=
  cand.matched = 0 ∧ specOppositeStatus cand newIt ∧ specOverlap cand newIt

instance (a b : Item) : Decidable (specCandidate a b) := by
  unfold specCandidate; infer_instance

/-- Spec wording: the ordered list of positions of the records satisfying
`p`, in original store order. -/
def specPositions (p : Item → Bool) (items : List Item) : List Nat :=
  (items.enum.filter fun x => p x.2).map Prod.fst

/-- Spec wording (C5): status equal to the query case-insensitively AND
unmatched. -/
def specStatusPred (q : List Nat) (it : Item) : Bool :=
  decide (toLowerCase it.status = toLowerCase q) && decide (it.matched = 0)

theorem searchByStatusAux_eq (q : List Nat) (l : List Item) (i : Nat) :
    searchByStatusAux q l i =
      ((List.enumFrom i l).filter fun x => specStatusPred q x.2).map Prod.fst := by
  induction l generalizing i with
  | nil => rfl
  | cons it rest ih =>
    rw [searchByStatusAux, List.enumFrom_cons, List.filter_cons]
    by_cases hc : toLowerCase it.status = toLowerCase q ∧ it.matched = 0
    · rw [if_pos hc, if_pos (by simp [specStatusPred, hc.1, hc.2]), List.map_cons, ih]
    · rw [if_neg hc, if_neg (by simpa [specStatusPred, Bool.and_eq_true,
        decide_eq_true_eq] using hc), ih]

/-- C5: the status search returns, in original store order, exactly the
positions of records whose status equals the query case-insensitively AND
whose matched flag is clear; in particular every matched record is excluded
regardless of its status. -/
theorem c5_searchByStatus_spec (items : List Item) (q : List Nat) :
    searchByStatus items q = specPositions (specStatusPred q) items ∧
    ∀ i ∈ searchByStatus items q, ∀ a, items[i]? = some a → a.matched = 0 := by
  have he : searchByStatus items q = specPositions (specStatusPred q) items := by
    unfold searchByStatus specPositions
    rw [searchByStatusAux_eq, List.enum_eq_enumFrom]
  refine ⟨he, ?_⟩
  intro i hi a ha
  rw [he] at hi
  unfold specPositions at hi
  obtain ⟨⟨j, b⟩, hmem, hj⟩ := List.mem_map.1 hi
  obtain ⟨hb1, hb2⟩ := List.mem_filter.1 hmem
  have hgb := List.mem_enum_iff_getElem?.1 hb1
  simp only at hj
  subst hj
  rw [ha] at hgb
  have hba : b = a := by injection hgb with h; exact h.symm ▸ rfl
  have := hb2
  simp only [specStatusPred, Bool.and_eq_true, decide_eq_true_eq] at this
  rw [← hba]
  exact this.2

end LostFound

namespace LostFound

theorem statusNe_iff_opposite (a b : Item) (ha : statusWF a) (hb : statusWF b) :
    a.status ≠ b.status ↔ specOppositeStatus a b := by
  unfold specOppositeStatus
  rcases ha with h1 | h1 <;> rcases hb with h2 | h2 <;> rw [h1, h2] <;> decide

theorem itemOverlap_iff_spec (cand newIt : Item) :
    itemOverlap cand newIt = true ↔ specOverlap cand newIt := by
  unfold itemOverlap specOverlap specContains
  simp only [Bool.or_eq_true, containsSubstring_iff]
  tauto

theorem specCandidate_iff_code (newIt it : Item)
    (hsw : statusWF it) (hm : it.matched = 0 ∨ it.matched = 1)
    (hn : statusWF newIt) :
    specCandidate newIt it ↔
      (¬(it.matched = 1 ∨ it.status = newIt.status) ∧ itemOverlap it newIt = true) := by
  unfold specCandidate
  rw [← itemOverlap_iff_spec]
  constructor
  · rintro ⟨h0, hop, hov⟩
    refine ⟨?_, hov⟩
    rintro (h1 | h2)
    · rw [h0] at h1
      exact absurd h1 (by norm_num)
    · exact absurd h2 ((statusNe_iff_opposite it newIt hsw hn).2 hop)
  · rintro ⟨hns, hov⟩
    push_neg at hns
    obtain ⟨hm1, hs⟩ := hns
    have h0 : it.matched = 0 := by
      rcases hm with h | h
      · exact h
      · exact absurd h hm1
    exact ⟨h0, (statusNe_iff_opposite it newIt hsw hn).1 hs, hov⟩

theorem findPotentialMatchesAux_eq (newIt : Item) (l : List Item) (i : Nat)
    (h : ∀ it ∈ l, statusWF it ∧ (it.matched = 0 ∨ it.matched = 1))
    (hn : statusWF newIt) :
    findPotentialMatchesAux newIt l i =
      ((List.enumFrom i l).filter fun x => decide (specCandidate newIt x.2)).map Prod.fst := by
  induction l generalizing i with
  | nil => rfl
  | cons it rest ih =>
    obtain ⟨hsw, hm⟩ := h it (List.mem_cons_self it rest)
    have hrest := fun x hx => h x (List.mem_cons_of_mem _ hx)
    have hiff := specCandidate_iff_code newIt it hsw hm hn
    rw [findPotentialMatchesAux, List.enumFrom_cons, List.filter_cons]
    by_cases hskip : it.matched = 1 ∨ it.status = newIt.status
    · rw [if_pos hskip, ih _ hrest,
        if_neg (by simp only [decide_eq_true_eq]; rw [hiff]; tauto)]
    · rw [if_neg hskip]
      by_cases hov : itemOverlap it newIt = true
      · rw [if_pos hov,
          if_pos (by simp only [decide_eq_true_eq]; exact hiff.2 ⟨hskip, hov⟩),
          List.map_cons, ih _ hrest]
      · rw [if_neg hov, ih _ hrest,
          if_neg (by simp only [decide_eq_true_eq]; rw [hiff]; tauto)]

/-- C4: for a newly added record (the last in the store), the candidate
search scans only the other records and returns, in store order, exactly
the positions of records that are unmatched, of opposite status, and
overlap the new record case-insensitively in either direction on at least
one of name, category, description, location. -/
theorem c4_searchForMatches_spec (prior : List Item) (newIt : Item)
    (h : ∀ it ∈ prior, statusWF it ∧ (it.matched = 0 ∨ it.matched = 1))
    (hn : statusWF newIt) :
    searchForMatchesCands (prior ++ [newIt]) newIt =
      specPositions (fun it => decide (specCandidate newIt it)) prior := by
  unfold searchForMatchesCands findPotentialMatches specPositions
  have ht : (prior ++ [newIt]).take ((prior ++ [newIt]).length - 1) = prior := by
    have hl : (prior ++ [newIt]).length - 1 = prior.length := by
      rw [List.length_append]
      simp
    rw [hl, List.take_left]
  rw [ht, findPotentialMatchesAux_eq newIt prior 0 h hn, List.enum_eq_enumFrom]

/-- Witness for C4 at a concrete two-record store. -/
theorem c4_searchForMatches_spec_witness :
    (∀ it ∈ [sampleA], statusWF it ∧ (it.matched = 0 ∨ it.matched = 1)) ∧
    statusWF sampleB ∧
    searchForMatchesCands ([sampleA] ++ [sampleB]) sampleB =
      specPositions (fun it => decide (specCandidate sampleB it)) [sampleA] :=
  ⟨by decide, by decide,
    c4_searchForMatches_spec [sampleA] sampleB (by decide) (by decide)⟩

end LostFound

namespace LostFound

/-! ## Index lookup lemmas -/

theorem findIdxByIdAux_some (tid : Int) (l : List Item) (i p : Nat)
    (h : findIdxByIdAux tid l i = some p) :
    i ≤ p ∧ ∃ a, l[p - i]? = some a ∧ a.id = tid := by
  induction l generalizing i with
  | nil => simp [findIdxByIdAux] at h
  | cons it rest ih =>
    rw [findIdxByIdAux] at h
    by_cases e : it.id = tid
    · rw [if_pos e] at h
      injection h with h
      subst h
      exact ⟨le_refl _, it, by simp, e⟩
    · rw [if_neg e] at h
      obtain ⟨hle, a, ha, hid⟩ := ih (i + 1) h
      refine ⟨by omega, a, ?_, hid⟩
      have hpi : p - i = (p - (i + 1)) + 1 := by omega
      rw [hpi, List.getElem?_cons_succ]
      exact ha

theorem findIdxById_some (items : List Item) (tid : Int) (p : Nat)
    (h : findIdxById items tid = some p) :
    ∃ a, items[p]? = some a ∧ a.id = tid := by
  obtain ⟨-, a, ha, hid⟩ := findIdxByIdAux_some tid items 0 p h
  rw [Nat.sub_zero] at ha
  exact ⟨a, ha, hid⟩

theorem findIdxByIdAux_none (tid : Int) (l : List Item) (i : Nat)
    (h : findIdxByIdAux tid l i = none) : ∀ a ∈ l, a.id ≠ tid := by
  induction l generalizing i with
  | nil => simp
  | cons it rest ih =>
    rw [findIdxByIdAux] at h
    by_cases e : it.id = tid
    · rw [if_pos e] at h
      exact absurd h (by simp)
    · rw [if_neg e] at h
      intro a ha
      rcases List.mem_cons.1 ha with rfl | ha
      · exact e
      · exact ih (i + 1) h a ha

theorem findIdxById_none (items : List Item) (tid : Int)
    (h : findIdxById items tid = none) : ∀ a ∈ items, a.id ≠ tid :=
  findIdxByIdAux_none tid items 0 h

theorem findLastIdxAux_prop (tid : Int) (l : List Item) (C : Nat → Prop) :
    ∀ (i : Nat) (acc : Option Nat) (p : Nat),
      (∀ q, acc = some q → C q) →
      (∀ j a, l[j]? = some a → a.id = tid → C (i + j)) →
      findLastIdxAux tid l i acc = some p → C p := by
  induction l with
  | nil =>
    intro i acc p hacc _ h
    exact hacc p h
  | cons it rest ih =>
    intro i acc p hacc hl h
    rw [findLastIdxAux] at h
    refine ih (i + 1) _ p ?_ ?_ h
    · intro q hq
      by_cases e : it.id = tid
      · rw [if_pos e] at hq
        injection hq with hq
        subst hq
        have h0 := hl 0 it (by simp) e
        simpa using h0
      · rw [if_neg e] at hq
        exact hacc q hq
    · intro j a hj hid
      have hsucc := hl (j + 1) a (by simpa using hj) hid
      have harith : i + (j + 1) = (i + 1) + j := by omega
      rwa [harith] at hsucc

theorem findLastIdx_some (items : List Item) (tid : Int) (p : Nat)
    (h : findLastIdx items tid = some p) :
    ∃ a, items[p]? = some a ∧ a.id = tid :=
  findLastIdxAux_prop tid items (fun p => ∃ a, items[p]? = some a ∧ a.id = tid)
    0 none p (by simp) (fun j a hj hid => by exact ⟨a, by simpa using hj, hid⟩) h

/-! ## C7: delete preserves order -/

/-- C7: deleting the record at the position its id resolves to yields the
original sequence with exactly that element removed: the count drops by
one, records before position `k` are unchanged, and every later record
shifts one position earlier (so relative order is preserved). -/
theorem c7_deleteItem_spec (items : List Item) (tid : Int) (k : Nat)
    (hfind : findIdxById items tid = some k) :
    ∃ res, deleteItem items tid = some res ∧
      res.length + 1 = items.length ∧
      (∀ i, i < k → res[i]? = items[i]?) ∧
      (∀ i, k ≤ i → res[i]? = items[i + 1]?) := by
  obtain ⟨a, ha, -⟩ := findIdxById_some items tid k hfind
  have hk : k < items.length := by
    rcases List.getElem?_eq_some_iff.1 ha with ⟨h, -⟩
    exact h
  refine ⟨items.eraseIdx k, ?_, ?_, ?_, ?_⟩
  · unfold deleteItem
    rw [if_neg (by omega), hfind]
  · rw [List.length_eraseIdx, if_pos hk]
    omega
  · intro i hi
    rw [List.eraseIdx_eq_take_drop_succ, List.getElem?_append,
      if_pos (by rw [List.length_take]; omega), List.getElem?_take, if_pos hi]
  · intro i hi
    rw [List.eraseIdx_eq_take_drop_succ, List.getElem?_append,
      if_neg (by rw [List.length_take]; omega), List.getElem?_drop]
    congr 1
    rw [List.length_take]
    omega

/-- Witness for C7 at a concrete two-record store. -/
theorem c7_deleteItem_spec_witness :
    findIdxById [sampleA, sampleB] 101 = some 1 ∧
    ∃ res, deleteItem [sampleA, sampleB] 101 = some res ∧
      res.length + 1 = ([sampleA, sampleB] : List Item).length ∧
      (∀ i, i < 1 → res[i]? = ([sampleA, sampleB] : List Item)[i]?) ∧
      (∀ i, 1 ≤ i → res[i]? = ([sampleA, sampleB] : List Item)[i + 1]?) :=
  ⟨by decide, c7_deleteItem_spec [sampleA, sampleB] 101 1 (by decide)⟩

end LostFound

namespace LostFound

/-! ## C2 and C10: the explicit match-two-ids operation -/

theorem not_same_pair_opposite (a b : Item) (ha : statusWF a) (hb : statusWF b)
    (h : ¬((a.status = lostStr ∧ b.status = lostStr) ∨
           (a.status = foundStr ∧ b.status = foundStr))) :
    specOppositeStatus a b := by
  unfold specOppositeStatus
  rcases ha with h1 | h1 <;> rcases hb with h2 | h2
  · exact absurd (Or.inl ⟨h1, h2⟩) h
  · exact Or.inl ⟨h1, h2⟩
  · exact Or.inr ⟨h1, h2⟩
  · exact absurd (Or.inr ⟨h1, h2⟩) h

/-- C2: whenever the explicit match-two-ids operation succeeds on the ids of
two records `a` and `b`, afterwards `a.matchedItemID = b.id`,
`b.matchedItemID = a.id`, both have `matched = 1`, and no other record
changed; and it succeeds only when the two records have opposite status
(one Lost, one Found), neither is already matched, and the two ids differ. -/
theorem c2_markItemAsMatched_spec (items : List Item) (id1 id2 : Int)
    (res : List Item)
    (hsw : ∀ it ∈ items, statusWF it)
    (hres : markItemAsMatched items id1 id2 = Except.ok res) :
    id1 ≠ id2 ∧
    ∃ (p1 p2 : Nat) (a b : Item), p1 ≠ p2 ∧
      items[p1]? = some a ∧ items[p2]? = some b ∧
      a.id = id1 ∧ b.id = id2 ∧
      a.matched = 0 ∧ b.matched = 0 ∧
      specOppositeStatus a b ∧
      res[p1]? = some { a with matched := 1, matchedItemID := b.id } ∧
      res[p2]? = some { b with matched := 1, matchedItemID := a.id } ∧
      ∀ q, q ≠ p1 → q ≠ p2 → res[q]? = items[q]? := by
  rw [markItemAsMatched] at hres
  split at hres
  · exact absurd hres (by simp)
  · split at hres
    · exact absurd hres (by simp)
    · rename_i hne2
      refine ⟨hne2, ?_⟩
      split at hres
      · rename_i p1 p2 hf1 hf2
        split at hres
        · rename_i it1 it2 hg1 hg2
          split at hres
          · exact absurd hres (by simp)
          · split at hres
            · exact absurd hres (by simp)
            · rename_i hstat hmat
              push_neg at hmat
              obtain ⟨hm1, hm2⟩ := hmat
              obtain ⟨a1, ha1, hid1⟩ := findLastIdx_some items id1 p1 hf1
              obtain ⟨a2, ha2, hid2⟩ := findLastIdx_some items id2 p2 hf2
              rw [hg1] at ha1
              rw [hg2] at ha2
              injection ha1 with ha1
              injection ha2 with ha2
              subst ha1
              subst ha2
              have hp1len : p1 < items.length := by
                rcases List.getElem?_eq_some_iff.1 hg1 with ⟨h, -⟩
                exact h
              have hp2len : p2 < items.length := by
                rcases List.getElem?_eq_some_iff.1 hg2 with ⟨h, -⟩
                exact h
              have hpne : p1 ≠ p2 := by
                intro hcontra
                rw [hcontra, hg2] at hg1
                injection hg1 with hg1
                exact hne2 (by rw [← hid1, ← hid2, hg1])
              have hopp : specOppositeStatus it1 it2 :=
                not_same_pair_opposite it1 it2
                  (hsw it1 (List.getElem?_mem hg1))
                  (hsw it2 (List.getElem?_mem hg2)) hstat
              injection hres with hres
              refine ⟨p1, p2, it1, it2, hpne, hg1, hg2, hid1, hid2,
                hm1, hm2, hopp, ?_, ?_, ?_⟩
              · rw [← hres, List.getElem?_set_ne hpne.symm,
                  List.getElem?_set_self hp1len]
              · rw [← hres, List.getElem?_set_self (by rw [List.length_set]; exact hp2len)]
              · intro q hq1 hq2
                rw [← hres, List.getElem?_set_ne (fun h => hq2 h.symm),
                  List.getElem?_set_ne (fun h => hq1 h.symm)]
        · exact absurd hres (by simp)
      · exact absurd hres (by simp)

/-- The store after matching the two sample records. -/
def matchedAB : List Item :=
  [{ sampleA with matched := 1, matchedItemID := 101 },
   { sampleB with matched := 1, matchedItemID := 100 }]

/-- Witness for C2: match the two sample records and read off that their
ids differ, via the theorem. -/
theorem c2_markItemAsMatched_spec_witness : (100 : Int) ≠ 101 :=
  (c2_markItemAsMatched_spec [sampleA, sampleB] 100 101 matchedAB
    (by decide) (by rfl)).1

/-- C10 holds only from two records up: the empty store is rejected by the
not-enough-items guard before the self-match check, so "for every store"
fails.  The self-match claim is refuted at the empty store. -/
theorem c10_counterexample :
    markItemAsMatched ([] : List Item) 0 0 = Except.error MatchErr.notEnoughItems ∧
    markItemAsMatched ([] : List Item) 0 0 ≠ Except.error MatchErr.selfMatch := by
  constructor
  · rfl
  · intro h
    have : MatchErr.notEnoughItems = MatchErr.selfMatch := by
      have h2 : markItemAsMatched ([] : List Item) 0 0 =
          Except.error MatchErr.notEnoughItems := rfl
      rw [h2] at h
      injection h
    exact absurd this (by decide)

/-- C10 (amended): for every store WITH AT LEAST TWO RECORDS and every
integer `a`, matching `a` with itself fails with the self-match rejection —
even when no record with id `a` exists, because the self-match check
precedes the existence lookup; stores with fewer than two records are
instead rejected by the not-enough-items guard. -/
theorem c10_selfMatch_first (items : List Item) (a : Int)
    (h2 : 2 ≤ items.length) :
    markItemAsMatched items a a = Except.error MatchErr.selfMatch := by
  rw [markItemAsMatched, if_neg (by omega), if_pos rfl]

/-- Witness for C10 (amended) at a two-record store and an id that exists
nowhere in it. -/
theorem c10_selfMatch_first_witness :
    2 ≤ ([sampleA, sampleB] : List Item).length ∧
    markItemAsMatched [sampleA, sampleB] 999 999 =
      Except.error MatchErr.selfMatch :=
  ⟨by decide, c10_selfMatch_first [sampleA, sampleB] 999 (by decide)⟩

end LostFound

namespace LostFound

/-! ## C3: claiming -/

theorem set_same_getElem? {α : Type} (l : List α) (p : Nat) (a : α)
    (h : l[p]? = some a) : l.set p a = l := by
  apply List.ext_getElem?
  intro n
  by_cases hn : n = p
  · subst hn
    rw [List.getElem?_set_self
      (by rcases List.getElem?_eq_some_iff.1 h with ⟨hh, -⟩; exact hh), h]
  · rw [List.getElem?_set_ne (fun hh => hn hh.symm)]

theorem map_id_set_same (l : List Item) (p : Nat) (a x : Item)
    (ha : l[p]? = some a) (hx : x.id = a.id) :
    (l.set p x).map Item.id = l.map Item.id := by
  rw [List.map_set, hx]
  apply set_same_getElem?
  rw [List.getElem?_map, ha]
  rfl

/-- C3: with the target id resolving to a live record `a`, `markAsClaimed`
fails — leaving every record unchanged — unless `a` is matched and not yet
claimed; and whenever it succeeds, the target record and the record
identified by its `matchedItemID` (when one exists) both end up with
`claimed = 1`. -/
theorem c3_markAsClaimed_spec (items : List Item) (tid : Int) (p : Nat) (a : Item)
    (hwf : ∀ it ∈ items,
      (it.matched = 0 ∨ it.matched = 1) ∧ (it.claimed = 0 ∨ it.claimed = 1))
    (hpos : ∀ it ∈ items, 100 ≤ it.id)
    (hnd : (items.map Item.id).Nodup)
    (hfind : findIdxById items tid = some p)
    (ha : items[p]? = some a) :
    (markAsClaimed items tid = none ↔ ¬(a.matched = 1 ∧ a.claimed = 0)) ∧
    (∀ res, markAsClaimed items tid = some res →
      res[p]? = some { a with claimed := 1 } ∧
      ∀ (q : Nat) (b : Item), res[q]? = some b → b.id = a.matchedItemID →
        b.claimed = 1) := by
  obtain ⟨hplen, -⟩ := List.getElem?_eq_some_iff.1 ha
  have hmem := List.getElem?_mem ha
  rw [markAsClaimed, hfind]
  dsimp only
  rw [ha]
  dsimp only
  by_cases hm0 : a.matched = 0
  · rw [if_pos hm0]
    refine ⟨⟨fun _ => ?_, fun _ => rfl⟩, fun res hres => absurd hres (by simp)⟩
    rintro ⟨h1, -⟩
    omega
  · rw [if_neg hm0]
    have hm1 : a.matched = 1 := by
      rcases (hwf a hmem).1 with h | h
      · exact absurd h hm0
      · exact h
    by_cases hc1 : a.claimed = 1
    · rw [if_pos hc1]
      refine ⟨⟨fun _ => ?_, fun _ => rfl⟩, fun res hres => absurd hres (by simp)⟩
      rintro ⟨-, h0⟩
      omega
    · rw [if_neg hc1]
      have hc0 : a.claimed = 0 := by
        rcases (hwf a hmem).2 with h | h
        · exact h
        · exact absurd h hc1
      have hnd1 : ((items.set p { a with claimed := 1 }).map Item.id).Nodup := by
        rw [map_id_set_same items p a { a with claimed := 1 } ha rfl]
        exact hnd
      have hset_p : (items.set p { a with claimed := 1 })[p]? =
          some { a with claimed := 1 } := List.getElem?_set_self hplen
      by_cases hmid : a.matchedItemID ≠ -1
      · rw [if_pos hmid]
        cases hfq : findIdxById (items.set p { a with claimed := 1 }) a.matchedItemID with
        | none =>
          dsimp only
          refine ⟨⟨fun h => absurd h (by simp), fun h => absurd ⟨hm1, hc0⟩ h⟩, ?_⟩
          intro res hres
          injection hres with hres
          subst hres
          refine ⟨hset_p, ?_⟩
          intro q b hqb hbid
          exact absurd hbid (findIdxById_none _ _ hfq b (List.getElem?_mem hqb))
        | some q0 =>
          obtain ⟨b0, hb0, hb0id⟩ := findIdxById_some _ _ q0 hfq
          dsimp only
          rw [hb0]
          dsimp only
          refine ⟨⟨fun h => absurd h (by simp), fun h => absurd ⟨hm1, hc0⟩ h⟩, ?_⟩
          intro res hres
          injection hres with hres
          subst hres
          have hq0len : q0 < (items.set p { a with claimed := 1 }).length := by
            rcases List.getElem?_eq_some_iff.1 hb0 with ⟨h, -⟩
            exact h
          constructor
          · by_cases hqp : q0 = p
            · subst hqp
              have hb0eq : b0 = { a with claimed := 1 } := by
                rw [hset_p] at hb0
                injection hb0 with hb0
                exact hb0.symm
              rw [List.getElem?_set_self hq0len, hb0eq]
            · rw [List.getElem?_set_ne hqp]
              exact hset_p
          · intro q b hqb hbid
            by_cases hqq : q = q0
            · subst hqq
              rw [List.getElem?_set_self hq0len] at hqb
              injection hqb with hqb
              rw [← hqb]
            · rw [List.getElem?_set_ne (fun h => hqq h.symm)] at hqb
              have hqlen : q < (items.set p { a with claimed := 1 }).length := by
                rcases List.getElem?_eq_some_iff.1 hqb with ⟨h, -⟩
                exact h
              have h1 : ((items.set p { a with claimed := 1 }).map Item.id)[q]? =
                  some b.id := by
                rw [List.getElem?_map, hqb]
                rfl
              have h2 : ((items.set p { a with claimed := 1 }).map Item.id)[q0]? =
                  some b0.id := by
                rw [List.getElem?_map, hb0]
                rfl
              have heq : q = q0 := by
                apply List.getElem?_inj (by rw [List.length_map]; exact hqlen) hnd1
                rw [h1, h2, hbid, hb0id]
              exact absurd heq hqq
      · rw [if_neg hmid]
        push_neg at hmid
        refine ⟨⟨fun h => absurd h (by simp), fun h => absurd ⟨hm1, hc0⟩ h⟩, ?_⟩
        intro res hres
        injection hres with hres
        subst hres
        refine ⟨hset_p, ?_⟩
        intro q b hqb hbid
        have hbmem := List.getElem?_mem hqb
        rcases List.mem_or_eq_of_mem_set hbmem with hb | hb
        · have := hpos b hb
          omega
        · have hbid2 : a.id = a.matchedItemID := by
            rw [hb] at hbid
            exact hbid
          have := hpos a hmem
          omega

/-- A matched (unclaimed) pair used by the C3 witness. -/
def matchedA : Item := { sampleA with matched := 1, matchedItemID := 101 }

/-- The Found half of the matched pair used by the C3 witness. -/
def matchedB : Item := { sampleB with matched := 1, matchedItemID := 100 }

/-- Witness for C3: claiming the Lost half of a matched pair claims both. -/
theorem c3_markAsClaimed_spec_witness :
    (markAsClaimed [matchedA, matchedB] 100 = none ↔
      ¬(matchedA.matched = 1 ∧ matchedA.claimed = 0)) :=
  (c3_markAsClaimed_spec [matchedA, matchedB] 100 0 matchedA
    (by decide) (by decide) (by decide) (by rfl) (by rfl)).1

end LostFound

namespace LostFound

/-! ## C6: the sort engine — generic bubble sort -/

/-- One bounded inner pass of the bubble sort: compare positions `j, j+1`
for `j` below the bound, swapping when `bad` says the adjacent pair is
strictly in the wrong order (the inner `for` loop of every C++ `sortBy...`
function, with bound `itemCount - i - 1`). -/
def passN {α : Type} (bad : α → α → Bool) : Nat → List α → List α
  | 0, l => l
  | _ + 1, [] => []
  | _ + 1, [a] => [a]
  | n + 1, a :: b :: rest =>
    if bad a b then b :: passN bad n (a :: rest) else a :: passN bad n (b :: rest)

/-- The outer loop; with counter `k` the inner bound is `k`, so the bounds
run `itemCount - 1, itemCount - 2, ..., 1` exactly as in the source. -/
def bubbleOuter {α : Type} (bad : α → α → Bool) : Nat → List α → List α
  | 0, l => l
  | k + 1, l => bubbleOuter bad k (passN bad (k + 1) l)

/-- The whole double loop of a C++ `sortBy...` function. -/
def bubbleSort {α : Type} (bad : α → α → Bool) (l : List α) : List α :=
  bubbleOuter bad (l.length - 1) l

theorem passN_split {α : Type} (bad : α → α → Bool) (n : Nat) (l : List α) :
    passN bad n l = passN bad n (l.take (n + 1)) ++ l.drop (n + 1) := by
  induction n generalizing l with
  | zero =>
    rw [passN]
    cases l with
    | nil => rfl
    | cons a t =>
      rw [List.take_succ_cons, List.take_zero, List.drop_succ_cons, List.drop_zero]
      rfl
  | succ n ih =>
    match l with
    | [] => rfl
    | [a] => rfl
    | a :: b :: rest =>
      rw [show (a :: b :: rest).take (n + 2) = a :: b :: rest.take n by simp,
        show (a :: b :: rest).drop (n + 2) = rest.drop n by simp]
      rw [passN, passN]
      by_cases hab : bad a b = true
      · rw [if_pos hab, if_pos hab, ih (a :: rest), List.cons_append]
        congr 2
      · rw [if_neg hab, if_neg hab, ih (b :: rest), List.cons_append]
        congr 2

theorem passN_perm {α : Type} (bad : α → α → Bool) (n : Nat) (l : List α) :
    (passN bad n l).Perm l := by
  induction n generalizing l with
  | zero => rw [passN]
  | succ n ih =>
    match l with
    | [] => rw [passN]
    | [a] => rw [passN]
    | a :: b :: rest =>
      rw [passN]
      by_cases hab : bad a b = true
      · rw [if_pos hab]
        exact ((ih (a :: rest)).cons b).trans (List.Perm.swap a b rest)
      · rw [if_neg hab]
        exact (ih (b :: rest)).cons a

theorem passN_max {α : Type} (le : α → α → Bool)
    (Htot : ∀ a b, le a b = true ∨ le b a = true)
    (Htrans : ∀ a b c, le a b = true → le b c = true → le a c = true)
    (n : Nat) (l : List α) (hlen : l.length ≤ n + 1) (hne : l ≠ []) :
    ∃ l' m, passN (fun a b => !le a b) n l = l' ++ [m] ∧
      ∀ x ∈ l, le x m = true := by
  induction n generalizing l with
  | zero =>
    match l with
    | [] => exact absurd rfl hne
    | [a] =>
      refine ⟨[], a, rfl, ?_⟩
      intro x hx
      rw [List.mem_singleton] at hx
      rw [hx]
      rcases Htot a a with h | h <;> exact h
    | a :: b :: rest =>
      exfalso
      simp at hlen
  | succ n ih =>
    match l with
    | [] => exact absurd rfl hne
    | [a] =>
      refine ⟨[], a, rfl, ?_⟩
      intro x hx
      rw [List.mem_singleton] at hx
      rw [hx]
      rcases Htot a a with h | h <;> exact h
    | a :: b :: rest =>
      have hlen2 : (a :: rest).length ≤ n + 1 := by
        simp at hlen ⊢
        omega
      have hlen3 : (b :: rest).length ≤ n + 1 := by
        simp at hlen ⊢
        omega
      rw [passN]
      by_cases hab : (!le a b) = true
      · have habf : le a b = false := by
          cases h : le a b
          · rfl
          · rw [h] at hab
            simp at hab
        have hba : le b a = true := by
          rcases Htot a b with h | h
          · exact absurd h (by rw [habf]; simp)
          · exact h
        rw [if_pos hab]
        obtain ⟨l', m, hsplit, hmax⟩ := ih (a :: rest) hlen2 (by simp)
        refine ⟨b :: l', m, by rw [hsplit, List.cons_append], ?_⟩
        intro x hx
        rcases List.mem_cons.1 hx with h1 | hx2
        · rw [h1]
          exact hmax a (List.mem_cons_self a rest)
        · rcases List.mem_cons.1 hx2 with h2 | hx3
          · rw [h2]
            exact Htrans b a m hba (hmax a (List.mem_cons_self a rest))
          · exact hmax x (List.mem_cons_of_mem a hx3)
      · have hab2 : le a b = true := by
          cases h : le a b
          · exfalso
            apply hab
            rw [h]
            rfl
          · rfl
        rw [if_neg hab]
        obtain ⟨l', m, hsplit, hmax⟩ := ih (b :: rest) hlen3 (by simp)
        refine ⟨a :: l', m, by rw [hsplit, List.cons_append], ?_⟩
        intro x hx
        rcases List.mem_cons.1 hx with h1 | hx2
        · rw [h1]
          exact Htrans a b m hab2 (hmax b (List.mem_cons_self b rest))
        · exact hmax x hx2

theorem passN_filter {α : Type} (bad : α → α → Bool) (p : α → Bool)
    (hp : ∀ a b, bad a b = true → ¬(p a = true ∧ p b = true))
    (n : Nat) (l : List α) :
    (passN bad n l).filter p = l.filter p := by
  induction n generalizing l with
  | zero => rw [passN]
  | succ n ih =>
    match l with
    | [] => rw [passN]
    | [a] => rw [passN]
    | a :: b :: rest =>
      rw [passN]
      by_cases hab : bad a b = true
      · rw [if_pos hab]
        have hnot := hp a b hab
        simp only [List.filter_cons, ih]
        by_cases hpa : p a = true
        · by_cases hpb : p b = true
          · exact absurd ⟨hpa, hpb⟩ hnot
          · simp [hpa, hpb]
        · by_cases hpb : p b = true
          · simp [hpa, hpb]
          · simp [hpa, hpb]
      · rw [if_neg hab]
        simp only [List.filter_cons, ih]

end LostFound

namespace LostFound

/-- Sortedness with respect to a boolean "less or equal". -/
def SortedLe {α : Type} (le : α → α → Bool) (l : List α) : Prop :=
  l.Pairwise (fun a b => le a b = true)

/-- Bubble sort loop invariant: after the outer iterations with bounds down
to `k + 1`, the suffix beyond position `k` is sorted and dominates the
prefix. -/
def BubbleInv {α : Type} (le : α → α → Bool) (k : Nat) (l : List α) : Prop :=
  SortedLe le (l.drop (k + 1)) ∧
  ∀ x ∈ l.take (k + 1), ∀ y ∈ l.drop (k + 1), le x y = true

theorem bubble_step {α : Type} (le : α → α → Bool)
    (Htot : ∀ a b, le a b = true ∨ le b a = true)
    (Htrans : ∀ a b c, le a b = true → le b c = true → le a c = true)
    (k : Nat) (l : List α) (hinv : BubbleInv le (k + 1) l) :
    BubbleInv le k (passN (fun a b => !le a b) (k + 1) l) := by
  rw [passN_split]
  rcases Nat.lt_or_ge l.length (k + 2) with hlen | hlen
  · rw [List.take_of_length_le (by omega), List.drop_eq_nil_of_le (by omega),
      List.append_nil]
    have hplen : (passN (fun a b => !le a b) (k + 1) l).length = l.length :=
      (passN_perm _ _ _).length_eq
    constructor
    · rw [List.drop_eq_nil_of_le (by omega)]
      exact List.Pairwise.nil
    · intro x hx y hy
      rw [List.drop_eq_nil_of_le (by omega)] at hy
      cases hy
  · have htklen : (l.take (k + 2)).length = k + 2 := by
      rw [List.length_take]
      omega
    have htkne : l.take (k + 2) ≠ [] := by
      intro h
      rw [h] at htklen
      simp at htklen
    obtain ⟨l', m, hsplit, hmax⟩ :=
      passN_max le Htot Htrans (k + 1) (l.take (k + 2)) (by omega) htkne
    have hperm := passN_perm (fun a b => !le a b) (k + 1) (l.take (k + 2))
    rw [hsplit] at hperm
    have hl'len : l'.length = k + 1 := by
      have h2 := hperm.length_eq
      rw [List.length_append, htklen] at h2
      simp at h2
      omega
    have hsub : ∀ x ∈ l' ++ [m], x ∈ l.take (k + 2) := fun x hx => hperm.subset hx
    rw [hsplit]
    have hdrop : ((l' ++ [m]) ++ l.drop (k + 2)).drop (k + 1) = m :: l.drop (k + 2) := by
      rw [List.drop_append_of_le_length (by rw [List.length_append, hl'len]; simp),
        show k + 1 = l'.length by omega, List.drop_left]
      rfl
    have htake : ((l' ++ [m]) ++ l.drop (k + 2)).take (k + 1) = l' := by
      rw [List.take_append_of_le_length (by rw [List.length_append, hl'len]; simp),
        show k + 1 = l'.length by omega, List.take_left]
    constructor
    · rw [hdrop]
      refine List.Pairwise.cons ?_ hinv.1
      intro y hy
      exact hinv.2 m (hsub m (by simp)) y hy
    · intro x hx y hy
      rw [htake] at hx
      rw [hdrop] at hy
      have hxtk : x ∈ l.take (k + 2) := hsub x (List.mem_append_left _ hx)
      rcases List.mem_cons.1 hy with h1 | hy2
      · rw [h1]
        exact hmax x hxtk
      · exact hinv.2 x hxtk y hy2

theorem bubbleOuter_inv_sorted {α : Type} (le : α → α → Bool)
    (Htot : ∀ a b, le a b = true ∨ le b a = true)
    (Htrans : ∀ a b c, le a b = true → le b c = true → le a c = true) :
    ∀ (k : Nat) (l : List α), BubbleInv le k l →
      SortedLe le (bubbleOuter (fun a b => !le a b) k l) := by
  intro k
  induction k with
  | zero =>
    intro l hinv
    rw [bubbleOuter]
    match l with
    | [] => exact List.Pairwise.nil
    | a :: t =>
      refine List.Pairwise.cons ?_ hinv.1
      intro y hy
      exact hinv.2 a (by simp) y hy
  | succ k ih =>
    intro l hinv
    rw [bubbleOuter]
    exact ih _ (bubble_step le Htot Htrans k l hinv)

theorem bubbleOuter_perm {α : Type} (bad : α → α → Bool) :
    ∀ (k : Nat) (l : List α), (bubbleOuter bad k l).Perm l := by
  intro k
  induction k with
  | zero =>
    intro l
    rw [bubbleOuter]
  | succ k ih =>
    intro l
    rw [bubbleOuter]
    exact (ih _).trans (passN_perm bad (k + 1) l)

theorem bubbleOuter_filter {α : Type} (bad : α → α → Bool) (p : α → Bool)
    (hp : ∀ a b, bad a b = true → ¬(p a = true ∧ p b = true)) :
    ∀ (k : Nat) (l : List α), (bubbleOuter bad k l).filter p = l.filter p := by
  intro k
  induction k with
  | zero =>
    intro l
    rw [bubbleOuter]
  | succ k ih =>
    intro l
    rw [bubbleOuter, ih, passN_filter bad p hp]

theorem bubbleSort_perm {α : Type} (bad : α → α → Bool) (l : List α) :
    (bubbleSort bad l).Perm l :=
  bubbleOuter_perm bad (l.length - 1) l

theorem bubbleSort_sorted {α : Type} (le : α → α → Bool)
    (Htot : ∀ a b, le a b = true ∨ le b a = true)
    (Htrans : ∀ a b c, le a b = true → le b c = true → le a c = true)
    (l : List α) : SortedLe le (bubbleSort (fun a b => !le a b) l) := by
  apply bubbleOuter_inv_sorted le Htot Htrans
  constructor
  · rw [List.drop_eq_nil_of_le (by omega)]
    exact List.Pairwise.nil
  · intro x hx y hy
    rw [List.drop_eq_nil_of_le (by omega)] at hy
    cases hy

theorem bubbleSort_filter {α : Type} (bad : α → α → Bool) (p : α → Bool)
    (hp : ∀ a b, bad a b = true → ¬(p a = true ∧ p b = true)) (l : List α) :
    (bubbleSort bad l).filter p = l.filter p :=
  bubbleOuter_filter bad p hp (l.length - 1) l

end LostFound

namespace LostFound

/-! ## The byte-string order used by the sorts -/

theorem listLexLt_irrefl (x : List Nat) : listLexLt x x = false := by
  induction x with
  | nil => rfl
  | cons a t ih =>
    rw [listLexLt, if_neg (by omega), if_neg (by omega)]
    exact ih

theorem listLexLt_asymm (x y : List Nat) (h : listLexLt x y = true) :
    listLexLt y x = false := by
  induction x generalizing y with
  | nil =>
    cases y with
    | nil => rfl
    | cons b u => rfl
  | cons a t ih =>
    cases y with
    | nil => exact absurd h (by rw [listLexLt]; simp)
    | cons b u =>
      rw [listLexLt] at h ⊢
      by_cases hab : a < b
      · rw [if_neg (by omega), if_pos hab]
      · rw [if_neg hab] at h
        by_cases hba : b < a
        · rw [if_pos hba] at h
          exact absurd h (by simp)
        · rw [if_neg hba] at h
          rw [if_neg hba, if_neg hab]
          exact ih u h

theorem listLexLt_conn (x y : List Nat) (h1 : listLexLt x y = false)
    (h2 : listLexLt y x = false) : x = y := by
  induction x generalizing y with
  | nil =>
    cases y with
    | nil => rfl
    | cons b u => exact absurd h1 (by rw [listLexLt]; simp)
  | cons a t ih =>
    cases y with
    | nil => exact absurd h2 (by rw [listLexLt]; simp)
    | cons b u =>
      rw [listLexLt] at h1 h2
      by_cases hab : a < b
      · rw [if_pos hab] at h1
        exact absurd h1 (by simp)
      · by_cases hba : b < a
        · rw [if_pos hba] at h2
          exact absurd h2 (by simp)
        · rw [if_neg hab, if_neg hba] at h1
          rw [if_neg hba, if_neg hab] at h2
          have hae : a = b := by omega
          rw [hae, ih u h1 h2]

theorem listLexLt_trans (x y z : List Nat) (h1 : listLexLt x y = true)
    (h2 : listLexLt y z = true) : listLexLt x z = true := by
  induction x generalizing y z with
  | nil =>
    cases z with
    | nil =>
      cases y with
      | nil => exact h1
      | cons b u => exact absurd h2 (by rw [listLexLt]; simp)
    | cons c v => rfl
  | cons a t ih =>
    cases y with
    | nil => exact absurd h1 (by rw [listLexLt]; simp)
    | cons b u =>
      cases z with
      | nil => exact absurd h2 (by rw [listLexLt]; simp)
      | cons c v =>
        rw [listLexLt] at h1 h2 ⊢
        by_cases hab : a < b
        · by_cases hbc : b < c
          · rw [if_pos (by omega)]
          · rw [if_neg hbc] at h2
            by_cases hcb : c < b
            · rw [if_pos hcb] at h2
              exact absurd h2 (by simp)
            · have hbe : b = c := by omega
              rw [if_pos (by omega)]
        · rw [if_neg hab] at h1
          by_cases hba : b < a
          · rw [if_pos hba] at h1
            exact absurd h1 (by simp)
          · rw [if_neg hba] at h1
            have hae : a = b := by omega
            by_cases hbc : b < c
            · rw [if_pos (by omega)]
            · rw [if_neg hbc] at h2
              by_cases hcb : c < b
              · rw [if_pos hcb] at h2
                exact absurd h2 (by simp)
              · rw [if_neg hcb] at h2
                have hbe : b = c := by omega
                rw [if_neg (by omega), if_neg (by omega)]
                exact ih u v h1 h2

theorem lexNotLt_trans (x y z : List Nat) (h1 : listLexLt y x = false)
    (h2 : listLexLt z y = false) : listLexLt z x = false := by
  cases hzx : listLexLt z x
  · rfl
  · exfalso
    by_cases hxy : listLexLt x y = true
    · have := listLexLt_trans z x y hzx hxy
      rw [this] at h2
      cases h2
    · have hxye : x = y := listLexLt_conn x y (by
        cases h : listLexLt x y
        · rfl
        · exact absurd h hxy) h1
      rw [hxye] at hzx
      rw [hzx] at h2
      cases h2

theorem lexLe_total (x y : List Nat) :
    (!listLexLt x y) = true ∨ (!listLexLt y x) = true := by
  by_cases h : listLexLt x y = true
  · right
    rw [listLexLt_asymm x y h]
    rfl
  · left
    cases hb : listLexLt x y
    · rfl
    · exact absurd hb h

theorem lexLe_trans (x y z : List Nat) (h1 : (!listLexLt y x) = true)
    (h2 : (!listLexLt z y) = true) : (!listLexLt z x) = true := by
  have e1 : listLexLt y x = false := by
    cases h : listLexLt y x
    · rfl
    · rw [h] at h1
      cases h1
  have e2 : listLexLt z y = false := by
    cases h : listLexLt z y
    · rfl
    · rw [h] at h2
      cases h2
  rw [lexNotLt_trans x y z e1 e2]
  rfl

end LostFound

namespace LostFound

/-! ## The five `sortBy...` functions -/

/-- `sortByID`: swap when `ascending && a.id > b.id || !ascending && a.id < b.id`. -/
def sortByID (items : List Item) (ascending : Bool) : List Item :=
  bubbleSort (fun a b =>
    (ascending && decide (a.id > b.id)) || (!ascending && decide (a.id < b.id))) items

/-- `sortByName` (string `>` is `listLexLt` flipped). -/
def sortByName (items : List Item) (ascending : Bool) : List Item :=
  bubbleSort (fun a b =>
    (ascending && listLexLt b.name a.name) || (!ascending && listLexLt a.name b.name)) items

/-- `sortByCategory`. -/
def sortByCategory (items : List Item) (ascending : Bool) : List Item :=
  bubbleSort (fun a b =>
    (ascending && listLexLt b.category a.category) ||
    (!ascending && listLexLt a.category b.category)) items

/-- `sortByDate`: `strcmp(a.date, b.date) > 0` is the lexicographic order on
the null-terminated contents of the fixed arrays. -/
def sortByDate (items : List Item) (ascending : Bool) : List Item :=
  bubbleSort (fun a b =>
    (ascending && listLexLt (cstrOf b.date) (cstrOf a.date)) ||
    (!ascending && listLexLt (cstrOf a.date) (cstrOf b.date))) items

/-- `sortByStatus`: swap when `lostFirst && a.status < b.status || ...`. -/
def sortByStatus (items : List Item) (lostFirst : Bool) : List Item :=
  bubbleSort (fun a b =>
    (lostFirst && listLexLt a.status b.status) ||
    (!lostFirst && listLexLt b.status a.status)) items

/-- The five sort keys and directions `sortMenu` can dispatch to. -/
inductive SortChoice where
  | byId (ascending : Bool)
  | byName (ascending : Bool)
  | byCategory (ascending : Bool)
  | byDate (ascending : Bool)
  | byStatus (lostFirst : Bool)
deriving Repr, DecidableEq

/-- The `switch` dispatch of `sortMenu`. -/
def applySort : SortChoice → List Item → List Item
  | .byId asc, items => sortByID items asc
  | .byName asc, items => sortByName items asc
  | .byCategory asc, items => sortByCategory items asc
  | .byDate asc, items => sortByDate items asc
  | .byStatus lostFirst, items => sortByStatus items lostFirst

/-- The "may precede" order each sort establishes (spec wording: the chosen
key compared in the chosen direction, ties allowed). -/
def sortLe : SortChoice → Item → Item → Bool
  | .byId true, a, b => decide (a.id ≤ b.id)
  | .byId false, a, b => decide (b.id ≤ a.id)
  | .byName true, a, b => !listLexLt b.name a.name
  | .byName false, a, b => !listLexLt a.name b.name
  | .byCategory true, a, b => !listLexLt b.category a.category
  | .byCategory false, a, b => !listLexLt a.category b.category
  | .byDate true, a, b => !listLexLt (cstrOf b.date) (cstrOf a.date)
  | .byDate false, a, b => !listLexLt (cstrOf a.date) (cstrOf b.date)
  | .byStatus true, a, b => !listLexLt a.status b.status
  | .byStatus false, a, b => !listLexLt b.status a.status

/-- Two records carry equal sort keys for the chosen sort. -/
def sortKeyEq (c : SortChoice) (a b : Item) : Bool := sortLe c a b && sortLe c b a

theorem applySort_eq_bubble (c : SortChoice) (l : List Item) :
    applySort c l = bubbleSort (fun a b => !sortLe c a b) l := by
  cases c with
  | byId asc =>
    cases asc <;>
      (rw [applySort, sortByID]; congr 1; funext a b; rw [sortLe]) <;>
      simp only [Bool.true_and, Bool.not_true, Bool.false_and, Bool.or_false,
        Bool.false_or, Bool.not_false] <;>
      rw [← decide_not, decide_eq_decide] <;> omega
  | byName asc =>
    cases asc <;>
      (rw [applySort, sortByName]; congr 1; funext a b; rw [sortLe]) <;>
      simp
  | byCategory asc =>
    cases asc <;>
      (rw [applySort, sortByCategory]; congr 1; funext a b; rw [sortLe]) <;>
      simp
  | byDate asc =>
    cases asc <;>
      (rw [applySort, sortByDate]; congr 1; funext a b; rw [sortLe]) <;>
      simp
  | byStatus lostFirst =>
    cases lostFirst <;>
      (rw [applySort, sortByStatus]; congr 1; funext a b; rw [sortLe]) <;>
      simp

theorem sortLe_total (c : SortChoice) (a b : Item) :
    sortLe c a b = true ∨ sortLe c b a = true := by
  cases c with
  | byId asc =>
    cases asc <;> rw [sortLe, sortLe] <;> simp only [decide_eq_true_eq] <;> omega
  | byName asc =>
    cases asc
    · exact lexLe_total a.name b.name
    · exact lexLe_total b.name a.name
  | byCategory asc =>
    cases asc
    · exact lexLe_total a.category b.category
    · exact lexLe_total b.category a.category
  | byDate asc =>
    cases asc
    · exact lexLe_total (cstrOf a.date) (cstrOf b.date)
    · exact lexLe_total (cstrOf b.date) (cstrOf a.date)
  | byStatus lostFirst =>
    cases lostFirst
    · exact lexLe_total b.status a.status
    · exact lexLe_total a.status b.status

theorem sortLe_trans (c : SortChoice) (a b d : Item)
    (h1 : sortLe c a b = true) (h2 : sortLe c b d = true) :
    sortLe c a d = true := by
  cases c with
  | byId asc =>
    cases asc <;> rw [sortLe] at h1 h2 ⊢ <;>
      simp only [decide_eq_true_eq] at h1 h2 ⊢ <;> omega
  | byName asc =>
    cases asc <;> rw [sortLe] at h1 h2 ⊢
    · exact lexLe_trans d.name b.name a.name h2 h1
    · exact lexLe_trans a.name b.name d.name h1 h2
  | byCategory asc =>
    cases asc <;> rw [sortLe] at h1 h2 ⊢
    · exact lexLe_trans d.category b.category a.category h2 h1
    · exact lexLe_trans a.category b.category d.category h1 h2
  | byDate asc =>
    cases asc <;> rw [sortLe] at h1 h2 ⊢
    · exact lexLe_trans (cstrOf d.date) (cstrOf b.date) (cstrOf a.date) h2 h1
    · exact lexLe_trans (cstrOf a.date) (cstrOf b.date) (cstrOf d.date) h1 h2
  | byStatus lostFirst =>
    cases lostFirst <;> rw [sortLe] at h1 h2 ⊢
    · exact lexLe_trans a.status b.status d.status h1 h2
    · exact lexLe_trans d.status b.status a.status h2 h1

end LostFound

namespace LostFound

theorem sortBad_not_both_keyEq (c : SortChoice) (a0 a b : Item)
    (hbad : (!sortLe c a b) = true) :
    ¬(sortKeyEq c a0 a = true ∧ sortKeyEq c a0 b = true) := by
  rintro ⟨h1, h2⟩
  rw [sortKeyEq, Bool.and_eq_true] at h1 h2
  have hle := sortLe_trans c a a0 b h1.2 h2.1
  rw [hle] at hbad
  cases hbad

theorem sortByID_asc_canonical (l1 l2 : List Item) (hperm : l1.Perm l2)
    (hnd : (l2.map Item.id).Nodup) :
    sortByID l1 true = sortByID l2 true := by
  have hb1 : sortByID l1 true =
      bubbleSort (fun a b => !sortLe (.byId true) a b) l1 :=
    applySort_eq_bubble (.byId true) l1
  have hb2 : sortByID l2 true =
      bubbleSort (fun a b => !sortLe (.byId true) a b) l2 :=
    applySort_eq_bubble (.byId true) l2
  have hs1 : SortedLe (sortLe (.byId true)) (sortByID l1 true) := by
    rw [hb1]
    exact bubbleSort_sorted _ (sortLe_total _) (sortLe_trans _) l1
  have hs2 : SortedLe (sortLe (.byId true)) (sortByID l2 true) := by
    rw [hb2]
    exact bubbleSort_sorted _ (sortLe_total _) (sortLe_trans _) l2
  have hp1 : (sortByID l1 true).Perm l1 := by
    rw [hb1]
    exact bubbleSort_perm _ _
  have hp2 : (sortByID l2 true).Perm l2 := by
    rw [hb2]
    exact bubbleSort_perm _ _
  have hperm12 : (sortByID l1 true).Perm (sortByID l2 true) :=
    (hp1.trans hperm).trans hp2.symm
  have hnd1 : ((sortByID l1 true).map Item.id).Nodup :=
    (((hp1.trans hperm).map Item.id).symm).nodup hnd
  have hnd2 : ((sortByID l2 true).map Item.id).Nodup :=
    ((hp2.map Item.id).symm).nodup hnd
  have hlt1 : List.Pairwise (fun a b : Item => a.id < b.id) (sortByID l1 true) := by
    have hne := List.pairwise_map.1 hnd1
    exact (hs1.and hne).imp (fun h => by
      have hle := h.1
      simp only [sortLe, decide_eq_true_eq] at hle
      have hne2 := h.2
      omega)
  have hlt2 : List.Pairwise (fun a b : Item => a.id < b.id) (sortByID l2 true) := by
    have hne := List.pairwise_map.1 hnd2
    exact (hs2.and hne).imp (fun h => by
      have hle := h.1
      simp only [sortLe, decide_eq_true_eq] at hle
      have hne2 := h.2
      omega)
  haveI : IsAntisymm Item (fun a b : Item => a.id < b.id) :=
    ⟨fun a b h1 h2 => absurd h2 (by omega)⟩
  exact List.eq_of_perm_of_sorted hperm12 hlt1 hlt2

/-- C6: every sort operation (by id, name, category, date, or status, in
either direction) permutes the store and orders it by the chosen key and
direction; it is stable — each swap touches only an adjacent pair whose
keys are strictly misordered, so the subsequence of records whose sort key
equals any fixed record's key is exactly preserved; and since live ids are
unique, sorting by identifier ascending afterwards restores one canonical
deterministic order no matter which sort ran before. -/
theorem c6_sortEngine_spec (c : SortChoice) (l : List Item) :
    (applySort c l).Perm l ∧
    List.Pairwise (fun a b => sortLe c a b = true) (applySort c l) ∧
    (∀ a0 : Item, (applySort c l).filter (fun x => sortKeyEq c a0 x) =
      l.filter (fun x => sortKeyEq c a0 x)) ∧
    ((l.map Item.id).Nodup → sortByID (applySort c l) true = sortByID l true) := by
  have hbe := applySort_eq_bubble c l
  refine ⟨?_, ?_, ?_, ?_⟩
  · rw [hbe]
    exact bubbleSort_perm _ l
  · rw [hbe]
    exact bubbleSort_sorted (sortLe c) (sortLe_total c) (sortLe_trans c) l
  · intro a0
    rw [hbe]
    exact bubbleSort_filter _ _ (fun a b hb => sortBad_not_both_keyEq c a0 a b hb) l
  · intro hnd
    apply sortByID_asc_canonical
    · rw [hbe]
      exact bubbleSort_perm _ l
    · exact hnd

/-- Witness for C6: a name sort on a concrete two-record store, then the
canonical id sort, with the unique-ids side condition discharged. -/
theorem c6_sortEngine_spec_witness :
    (([sampleB, sampleA] : List Item).map Item.id).Nodup ∧
    sortByID (applySort (SortChoice.byName true) [sampleB, sampleA]) true =
      sortByID [sampleB, sampleA] true :=
  ⟨by decide,
    (c6_sortEngine_spec (SortChoice.byName true) [sampleB, sampleA]).2.2.2 (by decide)⟩

end LostFound

namespace LostFound

/-! ## C8: the operation-level state machine

The menu loop of `main` threads `items`, `itemCount`, `capacity`, `nextID`
and the file through the handlers.  Each `Op` is one completed menu
interaction with its already-validated inputs. -/

/-- The user-entered fields of an add or update interaction. -/
structure AddFields where
  name : List Nat
  category : List Nat
  description : List Nat
  date : List Nat
  location : List Nat
  personName : List Nat
  personContact : List Nat
deriving Repr, DecidableEq

/-- What `getInput`/`selectCategory`/`getValidDate` guarantee about the
fields before they reach the store: the date array carries its fixed 12
bytes and every string is a byte string (with a length a `size_t` holds). -/
def AddFieldsWF (f : AddFields) : Prop :=
  f.date.length = 12 ∧ isByteStr f.date ∧
  f.name.length < 2 ^ 64 ∧ isByteStr f.name ∧
  f.category.length < 2 ^ 64 ∧ isByteStr f.category ∧
  f.description.length < 2 ^ 64 ∧ isByteStr f.description ∧
  f.location.length < 2 ^ 64 ∧ isByteStr f.location ∧
  f.personName.length < 2 ^ 64 ∧ isByteStr f.personName ∧
  f.personContact.length < 2 ^ 64 ∧ isByteStr f.personContact

instance (f : AddFields) : Decidable (AddFieldsWF f) := by
  unfold AddFieldsWF; infer_instance

/-- One completed menu interaction. -/
inductive Op where
  | addLost (f : AddFields) (confirmId : Option Int)
  | addFound (f : AddFields) (confirmId : Option Int)
  | updateOp (tid : Int) (f : AddFields)
  | deleteOp (tid : Int)
  | matchOp (id1 id2 : Int)
  | claimOp (tid : Int)
  | sortOp (c : SortChoice)
  | clearOp
  | loadOp
deriving DecidableEq

/-- Field well-formedness of the inputs an op carries. -/
def OpWF : Op → Prop
  | .addLost f _ => AddFieldsWF f
  | .addFound f _ => AddFieldsWF f
  | .updateOp _ f => AddFieldsWF f
  | _ => True

instance (op : Op) : Decidable (OpWF op) := by
  cases op <;> (unfold OpWF; infer_instance)

/-- The program state `main` threads around. -/
structure SysState where
  items : List Item
  nextID : Int
  capacity : Nat
  fileBs : Option (List Nat)
deriving DecidableEq

/-- The record an add interaction constructs (`addLostItem`/`addFoundItem`). -/
def mkItem (nid : Int) (f : AddFields) (status : List Nat) : Item :=
  { id := nid, name := f.name, category := f.category,
    description := f.description, date := f.date, location := f.location,
    status := status, matched := 0, claimed := 0, matchedItemID := -1,
    personName := f.personName, personContact := f.personContact }

/-- `markMatchByID`: find the first record with `matchID` and cross-link it
with the new record at `newIdx` (`markAsMatched` on the two references);
identity when the id is absent. -/
def markMatchByID (items : List Item) (newIdx : Nat) (matchID : Int) : List Item :=
  match findIdxById items matchID with
  | none => items
  | some i =>
    match items[newIdx]?, items[i]? with
    | some newIt, some other =>
      (items.set newIdx { newIt with matched := 1, matchedItemID := other.id }).set
        i { other with matched := 1, matchedItemID := newIt.id }
    | _, _ => items

/-- An add interaction (`addLostItem`/`addFoundItem`): grow on full, append
the new record with the next id, save; then the `searchForMatches` prompt
may confirm one candidate id, in which case `markMatchByID` cross-links and
the store is saved again. -/
def addItem (s : SysState) (f : AddFields) (status : List Nat)
    (confirmId : Option Int) : SysState :=
  let cap1 := if s.items.length = s.capacity then s.capacity * 2 else s.capacity
  let newItem := mkItem s.nextID f status
  let items1 := s.items ++ [newItem]
  let nid1 := s.nextID + 1
  match confirmId with
  | none => ⟨items1, nid1, cap1, some (saveToFile nid1 items1)⟩
  | some cid =>
    let cands := searchForMatchesCands items1 newItem
    if cands.any (fun i =>
        match s.items[i]? with
        | some a => decide (a.id = cid)
        | none => false) then
      let items2 := markMatchByID items1 s.items.length cid
      ⟨items2, nid1, cap1, some (saveToFile nid1 items2)⟩
    else ⟨items1, nid1, cap1, some (saveToFile nid1 items1)⟩

/-- `updateItem` with the all-fields menu choice: the id, status, flags and
link are never touched by the update menu. -/
def updateItemOp (items : List Item) (tid : Int) (f : AddFields) :
    Option (List Item) :=
  match findIdxById items tid with
  | none => none
  | some p =>
    match items[p]? with
    | none => none
    | some it =>
      some (items.set p
        { it with
            name := f.name, category := f.category,
            description := f.description, date := f.date,
            location := f.location, personName := f.personName,
            personContact := f.personContact })

/-- One menu interaction.  Every mutating handler re-encodes the whole
store with `saveToFile`; failed operations return before the save. -/
def step (s : SysState) : Op → SysState
  | .addLost f cid => addItem s f lostStr cid
  | .addFound f cid => addItem s f foundStr cid
  | .updateOp tid f =>
    match updateItemOp s.items tid f with
    | none => s
    | some items2 => ⟨items2, s.nextID, s.capacity, some (saveToFile s.nextID items2)⟩
  | .deleteOp tid =>
    match deleteItem s.items tid with
    | none => s
    | some items2 => ⟨items2, s.nextID, s.capacity, some (saveToFile s.nextID items2)⟩
  | .matchOp id1 id2 =>
    match markItemAsMatched s.items id1 id2 with
    | .error _ => s
    | .ok items2 => ⟨items2, s.nextID, s.capacity, some (saveToFile s.nextID items2)⟩
  | .claimOp tid =>
    match markAsClaimed s.items tid with
    | none => s
    | some items2 => ⟨items2, s.nextID, s.capacity, some (saveToFile s.nextID items2)⟩
  | .sortOp c =>
    ⟨applySort c s.items, s.nextID, s.capacity,
      some (saveToFile s.nextID (applySort c s.items))⟩
  | .clearOp => ⟨[], 100, s.capacity, some []⟩
  | .loadOp =>
    ⟨(loadFromFile s.fileBs 10).items.getD [], (loadFromFile s.fileBs 10).nextID,
      (loadFromFile s.fileBs 10).capacity, s.fileBs⟩

/-- Run a sequence of menu interactions. -/
def run (ops : List Op) (s : SysState) : SysState := ops.foldl step s

/-- `main`'s state after starting with no data file: empty store and the
identifier counter at its initial value 100. -/
def initState : SysState := ⟨[], 100, 10, none⟩

/-- Number of identifiers an op consumes. -/
def opAdds : Op → Nat
  | .addLost _ _ => 1
  | .addFound _ _ => 1
  | _ => 0

/-- Number of identifiers a sequence consumes. -/
def addsCount (ops : List Op) : Nat := (ops.map opAdds).sum

/-- Store-level invariant: ids are unique, lie in `[100, nextID)`, records
are well formed, and the record count is bounded by the ids consumed. -/
def ItemsInv (items : List Item) (nid : Int) : Prop :=
  (items.map Item.id).Nodup ∧
  (∀ it ∈ items, 100 ≤ it.id ∧ it.id < nid) ∧
  (∀ it ∈ items, ItemWF it) ∧
  (items.length : Int) ≤ nid - 100

/-- Full system invariant: the store invariant plus the data file being
absent, freshly truncated, or an exact `saveToFile` image of a valid store
whose saved `nextID` equals the live one. -/
def Inv (s : SysState) : Prop :=
  100 ≤ s.nextID ∧
  ItemsInv s.items s.nextID ∧
  (s.fileBs = none ∧ s.nextID = 100 ∨
   s.fileBs = some [] ∧ s.nextID = 100 ∨
   ∃ fitems, s.fileBs = some (saveToFile s.nextID fitems) ∧
     validStore s.nextID fitems ∧ ItemsInv fitems s.nextID)

end LostFound

namespace LostFound

/-! ## C8 invariant helper lemmas -/

theorem map_id_set_eq (l : List Item) (p : Nat) (x : Item)
    (h : ∀ a, l[p]? = some a → x.id = a.id) :
    (l.set p x).map Item.id = l.map Item.id := by
  cases hl : l[p]? with
  | none =>
    rw [List.set_eq_of_length_le]
    rcases Nat.lt_or_ge p l.length with hp | hp
    · rw [List.getElem?_eq_getElem hp] at hl
      cases hl
    · exact hp
  | some a => exact map_id_set_same l p a x hl (h a hl)

/-- A record reachable from `items` by at most setting `matched`/`claimed`
flags and a `matchedItemID` drawn from the live ids. -/
def FlagUpd (items : List Item) (x : Item) : Prop :=
  x ∈ items ∨
  ∃ y ∈ items,
    (∃ mid : Int, mid ∈ items.map Item.id ∧
      x = { y with matched := 1, matchedItemID := mid }) ∨
    x = { y with claimed := 1 }

theorem itemsInv_of_flagUpd (items res : List Item) (nid : Int)
    (hinv : ItemsInv items nid) (h31 : nid ≤ 2 ^ 31)
    (hmap : res.map Item.id = items.map Item.id)
    (hmem : ∀ x ∈ res, FlagUpd items x) : ItemsInv res nid := by
  obtain ⟨hnd, hbnd, hwf, hlen⟩ := hinv
  have hmid_range : ∀ mid : Int, mid ∈ items.map Item.id → int32Range mid := by
    intro mid hmid
    obtain ⟨z, hz, hzid⟩ := List.mem_map.1 hmid
    obtain ⟨hz1, hz2⟩ := hbnd z hz
    rw [hzid] at hz1 hz2
    exact ⟨by omega, by omega⟩
  refine ⟨by rw [hmap]; exact hnd, ?_, ?_, ?_⟩
  · intro it hit
    rcases hmem it hit with h | ⟨y, hy, h⟩
    · exact hbnd it h
    · rcases h with ⟨mid, hmid, hx⟩ | hx
      · rw [hx]
        exact hbnd y hy
      · rw [hx]
        exact hbnd y hy
  · intro it hit
    rcases hmem it hit with h | ⟨y, hy, h⟩
    · exact hwf it h
    · obtain ⟨w1, w2, w3, w4, wrest⟩ := hwf y hy
      have r1 : int32Range 1 := ⟨by omega, by omega⟩
      rcases h with ⟨mid, hmid, hx⟩ | hx
      · rw [hx]
        exact ⟨w1, r1, w3, hmid_range mid hmid, wrest⟩
      · rw [hx]
        exact ⟨w1, w2, r1, w4, wrest⟩
  · have : res.length = items.length := by
      rw [← List.length_map res Item.id, hmap, List.length_map]
    rw [this]
    exact hlen

theorem itemsInv_append (items : List Item) (nid : Int) (newIt : Item)
    (hinv : ItemsInv items nid) (hid : newIt.id = nid) (h100 : 100 ≤ nid)
    (hwfn : ItemWF newIt) : ItemsInv (items ++ [newIt]) (nid + 1) := by
  obtain ⟨hnd, hbnd, hwf, hlen⟩ := hinv
  refine ⟨?_, ?_, ?_, ?_⟩
  · rw [List.map_append, List.nodup_append]
    refine ⟨hnd, by simp, ?_⟩
    intro v hv hv2
    simp only [List.map_cons, List.map_nil, List.mem_singleton] at hv2
    obtain ⟨z, hz, hzid⟩ := List.mem_map.1 hv
    obtain ⟨-, hz2⟩ := hbnd z hz
    rw [hzid] at hz2
    rw [hv2, hid] at hz2
    omega
  · intro it hit
    rcases List.mem_append.1 hit with h | h
    · obtain ⟨h1, h2⟩ := hbnd it h
      exact ⟨h1, by omega⟩
    · rw [List.mem_singleton] at h
      rw [h, hid]
      exact ⟨h100, by omega⟩
  · intro it hit
    rcases List.mem_append.1 hit with h | h
    · exact hwf it h
    · rw [List.mem_singleton] at h
      rw [h]
      exact hwfn
  · rw [List.length_append, List.length_singleton]
    push_cast
    omega

theorem itemsInv_perm (items res : List Item) (nid : Int)
    (hperm : res.Perm items) (hinv : ItemsInv items nid) : ItemsInv res nid := by
  obtain ⟨hnd, hbnd, hwf, hlen⟩ := hinv
  refine ⟨((hperm.map Item.id).symm).nodup hnd,
    fun it h => hbnd it (hperm.subset h),
    fun it h => hwf it (hperm.subset h), ?_⟩
  rw [hperm.length_eq]
  exact hlen

theorem validStore_of_itemsInv (items : List Item) (nid : Int)
    (hinv : ItemsInv items nid) (h100 : 100 ≤ nid) (h31 : nid < 2 ^ 31) :
    validStore nid items := by
  obtain ⟨-, -, hwf, hlen⟩ := hinv
  exact ⟨⟨by omega, h31⟩, by omega, hwf⟩

theorem mkItem_wf (nid : Int) (f : AddFields) (status : List Nat)
    (hf : AddFieldsWF f) (hst : status = lostStr ∨ status = foundStr)
    (h100 : 100 ≤ nid) (h31 : nid < 2 ^ 31) : ItemWF (mkItem nid f status) := by
  obtain ⟨f1, f2, f3, f4, f5, f6, f7, f8, f9, f10, f11, f12, f13, f14⟩ := hf
  have rid : int32Range nid := ⟨by omega, h31⟩
  have r0 : int32Range 0 := ⟨by omega, by omega⟩
  have rm1 : int32Range (-1) := ⟨by omega, by omega⟩
  refine ⟨rid, r0, r0, rm1, f1, f2, f3, f4, f5, f6, f7, f8, f9, f10, ?_, ?_,
    f11, f12, f13, f14⟩
  · rcases hst with h | h <;> rw [show (mkItem nid f status).status = status from rfl, h] <;> decide
  · rcases hst with h | h <;> rw [show (mkItem nid f status).status = status from rfl, h] <;> decide

end LostFound

namespace LostFound

theorem markItemAsMatched_flagUpd (items : List Item) (id1 id2 : Int)
    (res : List Item) (hres : markItemAsMatched items id1 id2 = Except.ok res) :
    res.map Item.id = items.map Item.id ∧ ∀ x ∈ res, FlagUpd items x := by
  rw [markItemAsMatched] at hres
  split at hres
  · exact absurd hres (by simp)
  · split at hres
    · exact absurd hres (by simp)
    · rename_i hne2
      split at hres
      · rename_i p1 p2 hf1 hf2
        split at hres
        · rename_i it1 it2 hg1 hg2
          split at hres
          · exact absurd hres (by simp)
          · split at hres
            · exact absurd hres (by simp)
            · injection hres with hres
              obtain ⟨a1, ha1, hid1⟩ := findLastIdx_some items id1 p1 hf1
              obtain ⟨a2, ha2, hid2⟩ := findLastIdx_some items id2 p2 hf2
              rw [hg1] at ha1
              rw [hg2] at ha2
              injection ha1 with ha1
              injection ha2 with ha2
              subst ha1
              subst ha2
              have hpne : p1 ≠ p2 := by
                intro hcontra
                rw [hcontra, hg2] at hg1
                injection hg1 with hg1
                exact hne2 (by rw [← hid1, ← hid2, hg1])
              constructor
              · rw [← hres,
                  map_id_set_eq _ p2 _ (fun a ha => by
                    rw [List.getElem?_set_ne hpne, hg2] at ha
                    injection ha with ha
                    rw [← ha]),
                  map_id_set_eq _ p1 _ (fun a ha => by
                    rw [hg1] at ha
                    injection ha with ha
                    rw [← ha])]
              · intro x hx
                rw [← hres] at hx
                rcases List.mem_or_eq_of_mem_set hx with h | h
                · rcases List.mem_or_eq_of_mem_set h with h2 | h2
                  · exact Or.inl h2
                  · exact Or.inr ⟨it1, List.getElem?_mem hg1,
                      Or.inl ⟨it2.id, List.mem_map.2 ⟨it2, List.getElem?_mem hg2, rfl⟩, h2⟩⟩
                · exact Or.inr ⟨it2, List.getElem?_mem hg2,
                    Or.inl ⟨it1.id, List.mem_map.2 ⟨it1, List.getElem?_mem hg1, rfl⟩, h⟩⟩
        · exact absurd hres (by simp)
      · exact absurd hres (by simp)

theorem markAsClaimed_flagUpd (items : List Item) (tid : Int) (res : List Item)
    (hres : markAsClaimed items tid = some res) :
    res.map Item.id = items.map Item.id ∧ ∀ x ∈ res, FlagUpd items x := by
  rw [markAsClaimed] at hres
  split at hres
  · exact absurd hres (by simp)
  · rename_i p hfp
    split at hres
    · exact absurd hres (by simp)
    · rename_i a hga
      split at hres
      · exact absurd hres (by simp)
      · split at hres
        · exact absurd hres (by simp)
        · split at hres
          · split at hres
            · injection hres with hres
              subst hres
              refine ⟨map_id_set_same items p a _ hga rfl, ?_⟩
              intro x hx
              rcases List.mem_or_eq_of_mem_set hx with h | h
              · exact Or.inl h
              · exact Or.inr ⟨a, List.getElem?_mem hga, Or.inr h⟩
            · rename_i q hfq
              split at hres
              · injection hres with hres
                subst hres
                refine ⟨map_id_set_same items p a _ hga rfl, ?_⟩
                intro x hx
                rcases List.mem_or_eq_of_mem_set hx with h | h
                · exact Or.inl h
                · exact Or.inr ⟨a, List.getElem?_mem hga, Or.inr h⟩
              · rename_i b hgb
                injection hres with hres
                subst hres
                constructor
                · rw [map_id_set_eq _ q _ (fun a2 ha2 => by
                      rw [hgb] at ha2
                      injection ha2 with ha2
                      rw [← ha2]),
                    map_id_set_eq _ p _ (fun a2 ha2 => by
                      rw [hga] at ha2
                      injection ha2 with ha2
                      rw [← ha2])]
                · intro x hx
                  rcases List.mem_or_eq_of_mem_set hx with h | h
                  · rcases List.mem_or_eq_of_mem_set h with h2 | h2
                    · exact Or.inl h2
                    · exact Or.inr ⟨a, List.getElem?_mem hga, Or.inr h2⟩
                  · have hbmem := List.getElem?_mem hgb
                    rcases List.mem_or_eq_of_mem_set hbmem with h3 | h3
                    · exact Or.inr ⟨b, h3, Or.inr h⟩
                    · refine Or.inr ⟨a, List.getElem?_mem hga, Or.inr ?_⟩
                      rw [h, h3]
          · injection hres with hres
            subst hres
            refine ⟨map_id_set_same items p a _ hga rfl, ?_⟩
            intro x hx
            rcases List.mem_or_eq_of_mem_set hx with h | h
            · exact Or.inl h
            · exact Or.inr ⟨a, List.getElem?_mem hga, Or.inr h⟩

theorem markMatchByID_flagUpd (items : List Item) (newIdx : Nat) (cid : Int) :
    (markMatchByID items newIdx cid).map Item.id = items.map Item.id ∧
    ∀ x ∈ markMatchByID items newIdx cid, FlagUpd items x := by
  rw [markMatchByID]
  split
  · exact ⟨rfl, fun x hx => Or.inl hx⟩
  · rename_i i hfi
    split
    · rename_i newIt other hgn hgo
      constructor
      · rw [map_id_set_eq _ i _ (fun a2 ha2 => by
            by_cases hin : i = newIdx
            · rw [hin, List.getElem?_set_self] at ha2
              · injection ha2 with ha2
                rw [hin] at hgo
                rw [hgn] at hgo
                injection hgo with hgo
                rw [← ha2, ← hgo]
              · rcases List.getElem?_eq_some_iff.1 hgn with ⟨hh, -⟩
                exact hh
            · rw [List.getElem?_set_ne (fun hc => hin hc.symm), hgo] at ha2
              injection ha2 with ha2
              rw [← ha2]),
          map_id_set_eq _ newIdx _ (fun a2 ha2 => by
            rw [hgn] at ha2
            injection ha2 with ha2
            rw [← ha2])]
      · intro x hx
        rcases List.mem_or_eq_of_mem_set hx with h | h
        · rcases List.mem_or_eq_of_mem_set h with h2 | h2
          · exact Or.inl h2
          · exact Or.inr ⟨newIt, List.getElem?_mem hgn,
              Or.inl ⟨other.id, List.mem_map.2 ⟨other, List.getElem?_mem hgo, rfl⟩, h2⟩⟩
        · exact Or.inr ⟨other, List.getElem?_mem hgo,
            Or.inl ⟨newIt.id, List.mem_map.2 ⟨newIt, List.getElem?_mem hgn, rfl⟩, h⟩⟩
    · exact ⟨rfl, fun x hx => Or.inl hx⟩

theorem deleteItem_itemsInv (items : List Item) (tid : Int) (res : List Item)
    (nid : Int) (hres : deleteItem items tid = some res)
    (hinv : ItemsInv items nid) : ItemsInv res nid := by
  rw [deleteItem] at hres
  split at hres
  · exact absurd hres (by simp)
  · split at hres
    · exact absurd hres (by simp)
    · rename_i idx hidx
      injection hres with hres
      subst hres
      obtain ⟨hnd, hbnd, hwf, hlen⟩ := hinv
      have hsub : (items.eraseIdx idx).Sublist items := List.eraseIdx_sublist items idx
      refine ⟨hnd.sublist (hsub.map Item.id),
        fun it h => hbnd it (hsub.subset h),
        fun it h => hwf it (hsub.subset h), ?_⟩
      have := hsub.length_le
      omega

theorem updateItemOp_itemsInv (items : List Item) (tid : Int) (f : AddFields)
    (res : List Item) (nid : Int) (hres : updateItemOp items tid f = some res)
    (hf : AddFieldsWF f) (hinv : ItemsInv items nid) : ItemsInv res nid := by
  rw [updateItemOp] at hres
  split at hres
  · exact absurd hres (by simp)
  · rename_i p hfp
    split at hres
    · exact absurd hres (by simp)
    · rename_i it hgit
      injection hres with hres
      subst hres
      obtain ⟨hnd, hbnd, hwf, hlen⟩ := hinv
      refine ⟨?_, ?_, ?_, ?_⟩
      · rw [map_id_set_eq _ p _ (fun a2 ha2 => by
          rw [hgit] at ha2
          injection ha2 with ha2
          rw [← ha2])]
        exact hnd
      · intro x hx
        rcases List.mem_or_eq_of_mem_set hx with h | h
        · exact hbnd x h
        · rw [h]
          exact hbnd it (List.getElem?_mem hgit)
      · intro x hx
        rcases List.mem_or_eq_of_mem_set hx with h | h
        · exact hwf x h
        · rw [h]
          obtain ⟨w1, w2, w3, w4, -, -, -, -, -, -, -, -, -, -, w15, w16, -, -, -, -⟩ :=
            hwf it (List.getElem?_mem hgit)
          obtain ⟨f1, f2, f3, f4, f5, f6, f7, f8, f9, f10, f11, f12, f13, f14⟩ := hf
          exact ⟨w1, w2, w3, w4, f1, f2, f3, f4, f5, f6, f7, f8, f9, f10,
            w15, w16, f11, f12, f13, f14⟩
      · rw [List.length_set]
        exact hlen

end LostFound

namespace LostFound

theorem addItem_spec (s : SysState) (f : AddFields) (status : List Nat)
    (cid : Option Int) (hf : AddFieldsWF f)
    (hst : status = lostStr ∨ status = foundStr)
    (hinv : Inv s) (hbound : s.nextID + 1 < 2 ^ 31) :
    Inv (addItem s f status cid) ∧ (addItem s f status cid).nextID = s.nextID + 1 := by
  obtain ⟨h100, hitems, -⟩ := hinv
  have hwfnew : ItemWF (mkItem s.nextID f status) :=
    mkItem_wf s.nextID f status hf hst h100 (by omega)
  have hinv1 : ItemsInv (s.items ++ [mkItem s.nextID f status]) (s.nextID + 1) :=
    itemsInv_append s.items s.nextID _ hitems rfl h100 hwfnew
  have hvs1 : validStore (s.nextID + 1) (s.items ++ [mkItem s.nextID f status]) :=
    validStore_of_itemsInv _ _ hinv1 (by omega) hbound
  rw [addItem.eq_def]
  cases cid with
  | none =>
    exact ⟨⟨by dsimp only; omega, hinv1, Or.inr (Or.inr ⟨_, rfl, hvs1, hinv1⟩)⟩, rfl⟩
  | some cid0 =>
    dsimp only
    split
    · have hmm := markMatchByID_flagUpd
        (s.items ++ [mkItem s.nextID f status]) s.items.length cid0
      have hinv2 : ItemsInv
          (markMatchByID (s.items ++ [mkItem s.nextID f status]) s.items.length cid0)
          (s.nextID + 1) :=
        itemsInv_of_flagUpd _ _ _ hinv1 (by omega) hmm.1 hmm.2
      have hvs2 := validStore_of_itemsInv _ _ hinv2 (by omega) hbound
      exact ⟨⟨by dsimp only; omega, hinv2, Or.inr (Or.inr ⟨_, rfl, hvs2, hinv2⟩)⟩, rfl⟩
    · exact ⟨⟨by dsimp only; omega, hinv1, Or.inr (Or.inr ⟨_, rfl, hvs1, hinv1⟩)⟩, rfl⟩

theorem step_inv (s : SysState) (op : Op) (hinv : Inv s) (hwf : OpWF op)
    (hbound : s.nextID + (opAdds op : Int) < 2 ^ 31) :
    Inv (step s op) ∧ (step s op).nextID ≤ s.nextID + (opAdds op : Int) ∧
    (op ≠ Op.clearOp → s.nextID ≤ (step s op).nextID) := by
  obtain ⟨h100, hitems, hfile⟩ := hinv
  cases op with
  | addLost f cid =>
    have hb1 : s.nextID + 1 < 2 ^ 31 := by simpa [opAdds] using hbound
    have h := addItem_spec s f lostStr cid hwf (Or.inl rfl) ⟨h100, hitems, hfile⟩ hb1
    have hstep : step s (Op.addLost f cid) = addItem s f lostStr cid := rfl
    rw [hstep]
    refine ⟨h.1, ?_, fun _ => ?_⟩
    · rw [h.2]
      simp [opAdds]
    · rw [h.2]
      omega
  | addFound f cid =>
    have hb1 : s.nextID + 1 < 2 ^ 31 := by simpa [opAdds] using hbound
    have h := addItem_spec s f foundStr cid hwf (Or.inr rfl) ⟨h100, hitems, hfile⟩ hb1
    have hstep : step s (Op.addFound f cid) = addItem s f foundStr cid := rfl
    rw [hstep]
    refine ⟨h.1, ?_, fun _ => ?_⟩
    · rw [h.2]
      simp [opAdds]
    · rw [h.2]
      omega
  | updateOp tid f =>
    have hb0 : s.nextID < 2 ^ 31 := by simpa [opAdds] using hbound
    cases hu : updateItemOp s.items tid f with
    | none =>
      have hstep : step s (Op.updateOp tid f) = s := by rw [step, hu]
      rw [hstep]
      exact ⟨⟨h100, hitems, hfile⟩, by simp [opAdds], fun _ => le_refl _⟩
    | some items2 =>
      have hstep : step s (Op.updateOp tid f) =
          ⟨items2, s.nextID, s.capacity, some (saveToFile s.nextID items2)⟩ := by
        rw [step, hu]
      rw [hstep]
      have hinv2 : ItemsInv items2 s.nextID :=
        updateItemOp_itemsInv s.items tid f items2 s.nextID hu hwf hitems
      have hvs : validStore s.nextID items2 := validStore_of_itemsInv _ _ hinv2 h100 hb0
      exact ⟨⟨h100, hinv2, Or.inr (Or.inr ⟨items2, rfl, hvs, hinv2⟩)⟩,
        by simp [opAdds], fun _ => le_refl _⟩
  | deleteOp tid =>
    have hb0 : s.nextID < 2 ^ 31 := by simpa [opAdds] using hbound
    cases hd : deleteItem s.items tid with
    | none =>
      have hstep : step s (Op.deleteOp tid) = s := by rw [step, hd]
      rw [hstep]
      exact ⟨⟨h100, hitems, hfile⟩, by simp [opAdds], fun _ => le_refl _⟩
    | some items2 =>
      have hstep : step s (Op.deleteOp tid) =
          ⟨items2, s.nextID, s.capacity, some (saveToFile s.nextID items2)⟩ := by
        rw [step, hd]
      rw [hstep]
      have hinv2 : ItemsInv items2 s.nextID :=
        deleteItem_itemsInv s.items tid items2 s.nextID hd hitems
      have hvs : validStore s.nextID items2 := validStore_of_itemsInv _ _ hinv2 h100 hb0
      exact ⟨⟨h100, hinv2, Or.inr (Or.inr ⟨items2, rfl, hvs, hinv2⟩)⟩,
        by simp [opAdds], fun _ => le_refl _⟩
  | matchOp id1 id2 =>
    have hb0 : s.nextID < 2 ^ 31 := by simpa [opAdds] using hbound
    cases hm : markItemAsMatched s.items id1 id2 with
    | error e =>
      have hstep : step s (Op.matchOp id1 id2) = s := by rw [step, hm]
      rw [hstep]
      exact ⟨⟨h100, hitems, hfile⟩, by simp [opAdds], fun _ => le_refl _⟩
    | ok items2 =>
      have hstep : step s (Op.matchOp id1 id2) =
          ⟨items2, s.nextID, s.capacity, some (saveToFile s.nextID items2)⟩ := by
        rw [step, hm]
      rw [hstep]
      have hsh := markItemAsMatched_flagUpd s.items id1 id2 items2 hm
      have hinv2 : ItemsInv items2 s.nextID :=
        itemsInv_of_flagUpd s.items items2 s.nextID hitems (by omega) hsh.1 hsh.2
      have hvs : validStore s.nextID items2 := validStore_of_itemsInv _ _ hinv2 h100 hb0
      exact ⟨⟨h100, hinv2, Or.inr (Or.inr ⟨items2, rfl, hvs, hinv2⟩)⟩,
        by simp [opAdds], fun _ => le_refl _⟩
  | claimOp tid =>
    have hb0 : s.nextID < 2 ^ 31 := by simpa [opAdds] using hbound
    cases hc : markAsClaimed s.items tid with
    | none =>
      have hstep : step s (Op.claimOp tid) = s := by rw [step, hc]
      rw [hstep]
      exact ⟨⟨h100, hitems, hfile⟩, by simp [opAdds], fun _ => le_refl _⟩
    | some items2 =>
      have hstep : step s (Op.claimOp tid) =
          ⟨items2, s.nextID, s.capacity, some (saveToFile s.nextID items2)⟩ := by
        rw [step, hc]
      rw [hstep]
      have hsh := markAsClaimed_flagUpd s.items tid items2 hc
      have hinv2 : ItemsInv items2 s.nextID :=
        itemsInv_of_flagUpd s.items items2 s.nextID hitems (by omega) hsh.1 hsh.2
      have hvs : validStore s.nextID items2 := validStore_of_itemsInv _ _ hinv2 h100 hb0
      exact ⟨⟨h100, hinv2, Or.inr (Or.inr ⟨items2, rfl, hvs, hinv2⟩)⟩,
        by simp [opAdds], fun _ => le_refl _⟩
  | sortOp c =>
    have hb0 : s.nextID < 2 ^ 31 := by simpa [opAdds] using hbound
    have hstep : step s (Op.sortOp c) =
        ⟨applySort c s.items, s.nextID, s.capacity,
          some (saveToFile s.nextID (applySort c s.items))⟩ := by
      rw [step]
    rw [hstep]
    have hperm : (applySort c s.items).Perm s.items := by
      rw [applySort_eq_bubble]
      exact bubbleSort_perm _ _
    have hinv2 : ItemsInv (applySort c s.items) s.nextID :=
      itemsInv_perm s.items _ s.nextID hperm hitems
    have hvs : validStore s.nextID (applySort c s.items) :=
      validStore_of_itemsInv _ _ hinv2 h100 hb0
    exact ⟨⟨h100, hinv2, Or.inr (Or.inr ⟨_, rfl, hvs, hinv2⟩)⟩,
      by simp [opAdds], fun _ => le_refl _⟩
  | clearOp =>
    have hstep : step s Op.clearOp = ⟨[], 100, s.capacity, some []⟩ := by rw [step]
    rw [hstep]
    refine ⟨⟨by dsimp only; omega, ?_, Or.inr (Or.inl ⟨rfl, rfl⟩)⟩, ?_,
      fun h => absurd rfl h⟩
    · exact ⟨by simp, by simp, by simp, by simp⟩
    · dsimp only
      simp only [opAdds, Nat.cast_zero, add_zero]
      omega
  | loadOp =>
    rcases hfile with ⟨hf0, hn0⟩ | ⟨hf0, hn0⟩ | ⟨fitems, hf0, hvs, hfinv⟩
    · have hstep : step s Op.loadOp = ⟨[], 100, 10, none⟩ := by
        rw [step, hf0]
        rfl
      rw [hstep]
      refine ⟨⟨by dsimp only; omega, ⟨by simp, by simp, by simp, by simp⟩,
        Or.inl ⟨rfl, rfl⟩⟩, ?_, ?_⟩
      · dsimp only
        simp only [opAdds, Nat.cast_zero, add_zero]
        omega
      · intro h
        rw [hn0]
    · have hstep : step s Op.loadOp = ⟨[], 100, 10, some []⟩ := by
        rw [step, hf0]
        rfl
      rw [hstep]
      refine ⟨⟨by dsimp only; omega, ⟨by simp, by simp, by simp, by simp⟩,
        Or.inr (Or.inl ⟨rfl, rfl⟩)⟩, ?_, ?_⟩
      · dsimp only
        simp only [opAdds, Nat.cast_zero, add_zero]
        omega
      · intro h
        rw [hn0]
    · have hload := load_save_roundtrip s.nextID fitems 10 hvs
      have h1 : (step s Op.loadOp).items = fitems := by
        rw [step, hf0, hload]
        rfl
      have h2 : (step s Op.loadOp).nextID = s.nextID := by
        rw [step, hf0, hload]
      have h3 : (step s Op.loadOp).fileBs = s.fileBs := by rw [step]
      refine ⟨⟨?_, ?_, Or.inr (Or.inr ⟨fitems, ?_, ?_, ?_⟩)⟩, ?_, ?_⟩
      · rw [h2]
        exact h100
      · rw [h1, h2]
        exact hfinv
      · rw [h3, h2, hf0]
      · rw [h2]
        exact hvs
      · rw [h2]
        exact hfinv
      · rw [h2]
        simp only [opAdds, Nat.cast_zero, add_zero]
        omega
      · intro h
        rw [h2]

end LostFound

namespace LostFound

theorem addsCount_append (l1 l2 : List Op) :
    addsCount (l1 ++ l2) = addsCount l1 + addsCount l2 := by
  simp [addsCount, List.map_append, List.sum_append]

theorem run_inv (ops : List Op) : ∀ s : SysState, Inv s → (∀ op ∈ ops, OpWF op) →
    s.nextID + (addsCount ops : Int) < 2 ^ 31 →
    Inv (run ops s) ∧ (run ops s).nextID ≤ s.nextID + (addsCount ops : Int) := by
  induction ops with
  | nil =>
    intro s hinv _ _
    exact ⟨hinv, by simp [run, addsCount]⟩
  | cons op rest ih =>
    intro s hinv hwf hbound
    have hao : (addsCount (op :: rest) : Int) =
        (opAdds op : Int) + (addsCount rest : Int) := by
      simp only [addsCount, List.map_cons, List.sum_cons]
      push_cast
      ring
    have hb1 : s.nextID + (opAdds op : Int) < 2 ^ 31 := by
      rw [hao] at hbound
      have hnn : (0 : Int) ≤ (addsCount rest : Int) := by positivity
      omega
    have hstep := step_inv s op hinv (hwf op (List.mem_cons_self op rest)) hb1
    have hrun : run (op :: rest) s = run rest (step s op) := by
      rw [run, run, List.foldl_cons]
    rw [hrun]
    have hb2 : (step s op).nextID + (addsCount rest : Int) < 2 ^ 31 := by
      rw [hao] at hbound
      have h2 := hstep.2.1
      omega
    obtain ⟨hI, hN⟩ := ih (step s op) hstep.1
      (fun o ho => hwf o (List.mem_cons_of_mem _ ho)) hb2
    refine ⟨hI, ?_⟩
    rw [hao]
    have h2 := hstep.2.1
    omega

/-- C8 counterexample input: one well-formed Lost report. -/
def sampleFields : AddFields :=
  { name := [119, 97, 108, 108, 101, 116], category := [66, 97, 103, 115],
    description := [98, 114, 111, 119, 110],
    date := [50, 48, 50, 52, 45, 48, 49, 45, 48, 50, 0, 0],
    location := [76, 105, 98], personName := [], personContact := [] }

/-- C8 fails as stated: clear-all RESETS the counter.  After one add the
counter is 101; running clear-all next brings it back down to 100, so the
counter does decrease across a clear-all operation. -/
theorem c8_counterexample :
    (run [Op.addLost sampleFields none] initState).nextID = 101 ∧
    (run [Op.addLost sampleFields none, Op.clearOp] initState).nextID = 100 ∧
    ¬(run [Op.addLost sampleFields none] initState).nextID ≤
      (run [Op.addLost sampleFields none, Op.clearOp] initState).nextID := by
  have e1 : (run [Op.addLost sampleFields none] initState).nextID = 101 := rfl
  have e2 : (run [Op.addLost sampleFields none, Op.clearOp] initState).nextID = 100 := rfl
  refine ⟨e1, e2, ?_⟩
  rw [e1, e2]
  norm_num

/-- C8 (amended): from a fresh start the identifier counter begins at 100;
after any sequence of well-formed operations whose adds stay within the C
`int` id space, every id held by a live record is unique among live
records, and the counter never drops below 100; moreover across any single
operation OTHER THAN CLEAR-ALL the counter never decreases — clear-all
resets it to its initial value 100, and the counter also survives a
save/load cycle unchanged. -/
theorem c8_id_invariants (ops : List Op) (hwf : ∀ op ∈ ops, OpWF op)
    (hbound : (100 : Int) + (addsCount ops : Int) < 2 ^ 31) :
    initState.nextID = 100 ∧
    ((run ops initState).items.map Item.id).Nodup ∧
    100 ≤ (run ops initState).nextID ∧
    (∀ pre op post, ops = pre ++ op :: post → op ≠ Op.clearOp →
      (run pre initState).nextID ≤ (run (pre ++ [op]) initState).nextID) := by
  have hII : ItemsInv ([] : List Item) 100 :=
    ⟨List.nodup_nil, by simp, by simp, by norm_num⟩
  have hinv0 : Inv initState := ⟨le_refl 100, hII, Or.inl ⟨rfl, rfl⟩⟩
  have hmain := run_inv ops initState hinv0 hwf hbound
  refine ⟨rfl, hmain.1.2.1.1, hmain.1.1, ?_⟩
  intro pre op post hops hne
  have hwfpre : ∀ o ∈ pre, OpWF o :=
    fun o ho => hwf o (by rw [hops]; exact List.mem_append_left _ ho)
  have hle : addsCount pre + opAdds op ≤ addsCount ops := by
    rw [hops, addsCount_append]
    simp only [addsCount, List.map_cons, List.sum_cons]
    have : (List.map opAdds post).sum + (addsCount pre + opAdds op) =
        addsCount pre + (opAdds op + (List.map opAdds post).sum) := by ring
    omega
  have hboundpre : initState.nextID + (addsCount pre : Int) < 2 ^ 31 := by
    show (100 : Int) + (addsCount pre : Int) < 2 ^ 31
    have hc : (addsCount pre : Int) ≤ (addsCount ops : Int) := by
      exact_mod_cast Nat.le_trans (Nat.le_add_right _ _) hle
    omega
  have hpre := run_inv pre initState hinv0 hwfpre hboundpre
  have hop_wf : OpWF op := hwf op (by
    rw [hops]
    exact List.mem_append_right _ (List.mem_cons_self op post))
  have hbop : (run pre initState).nextID + (opAdds op : Int) < 2 ^ 31 := by
    have h2 := hpre.2
    have hc : (addsCount pre : Int) + (opAdds op : Int) ≤ (addsCount ops : Int) := by
      exact_mod_cast hle
    have h0 : initState.nextID = 100 := rfl
    omega
  have hstep := step_inv (run pre initState) op hpre.1 hop_wf hbop
  have hfold : run (pre ++ [op]) initState = step (run pre initState) op := by
    rw [run, List.foldl_append]
    rfl
  rw [hfold]
  exact hstep.2.2 hne

/-- Witness for C8 (amended): a concrete add-then-clear sequence, with the
well-formedness and id-budget hypotheses discharged. -/
theorem c8_id_invariants_witness :
    ((run [Op.addLost sampleFields none, Op.clearOp] initState).items.map
      Item.id).Nodup :=
  (c8_id_invariants [Op.addLost sampleFields none, Op.clearOp]
    (by decide) (by decide)).2.1

end LostFound
